import Mathlib

/-!
PixelTheater WebGL camera: a verification development

Shallow embedding of `lib/PixelTheater/src/platform/webgl/camera.cpp`
(class `PixelTheater::Camera`) together with the camera constants of
`lib/PixelTheater/include/PixelTheater/platform/web_platform.h`.

Numeric model.  The C++ code computes with `float`.  Here every `float` is
idealised to a real number: `std::cos`, `std::sin`, `std::sqrt` are the real
functions, `M_PI` is `Real.pi`, and arithmetic is exact.  Rounding, overflow,
NaN and infinities are outside this model.  Because the order on the reals is
not decidable by computation, the definitions live in a `noncomputable section`;
they are otherwise written statement by statement after the source.

The one property that this idealisation cannot decide, whether the wrap loops
exit on large angles, is settled on a second embedding of `updateModelRotation`
in which every arithmetic result is rounded to binary32 (section "Binary32
arithmetic").

Float literals with an integer value (`0.0f`, `1.0f`, `20.0f`, ...) are written
as the numerals `0`, `1`, `20`; the others (`0.1f`, `0.99f`, `0.0001f`) keep
their decimal form.

A `float* matrix` of 16 entries is a function `Fin 16 → ℝ`; a store
`matrix[i] = v` is `setEntry`.
-/

noncomputable section

namespace PixelTheater

/-! ## Constants -/

/-- Constant `static constexpr float DISTANCE_CLOSE = 7.0f;` (camera.cpp, line 11). -/
def DISTANCE_CLOSE : ℝ := 7

/-- Constant `static constexpr float DISTANCE_NORMAL = 20.0f;` (camera.cpp, line 12). -/
def DISTANCE_NORMAL : ℝ := 20

/-- Constant `static constexpr float DISTANCE_FAR = 30.0f;` (camera.cpp, line 13). -/
def DISTANCE_FAR : ℝ := 30

/-- Constant `static constexpr float CAMERA_Y_OFFSET = 5.0f;` (camera.cpp, line 16). -/
def CAMERA_Y_OFFSET : ℝ := 5

/-- Constant `WebPlatform::CAMERA_CLOSE_DISTANCE = 22.0f` (web_platform.h, line 53). -/
def CAMERA_CLOSE_DISTANCE : ℝ := 22

/-- Constant `WebPlatform::CAMERA_NORMAL_DISTANCE = 28.0f` (web_platform.h, line 54). -/
def CAMERA_NORMAL_DISTANCE : ℝ := 28

/-- Constant `WebPlatform::CAMERA_FAR_DISTANCE = 55.0f` (web_platform.h, line 55). -/
def CAMERA_FAR_DISTANCE : ℝ := 55

/-- The value `static_cast<float>(M_PI * 2.0f)` (and `2.0f * M_PI`), idealised. -/
def TWO_PI : ℝ := Real.pi * 2

/-- Enumeration `enum class ZoomLevel { CLOSE, NORMAL, FAR }` (web_platform.h, lines 28-32). -/
inductive ZoomLevel where
  | CLOSE
  | NORMAL
  | FAR
  deriving DecidableEq, Repr

/-! ## Camera state -/

/-- The data members of `class Camera`, in the order of the constructor's
initialiser list (camera.cpp, lines 19-26). -/
structure Camera where
  _cameraHeight : ℝ
  _cameraDistance : ℝ
  _modelRotationX : ℝ
  _modelRotationY : ℝ
  _modelRotationZ : ℝ
  _autoRotate : Bool
  _autoRotationSpeed : ℝ
  _viewAngle : ℝ

/-- Library function `std::max(a, b)`: returns `b` when `a < b`, otherwise `a`. -/
def stdMax (a b : ℝ) : ℝ := if a < b then b else a

/-- Library function `std::min(a, b)`: returns `b` when `b < a`, otherwise `a`. -/
def stdMin (a b : ℝ) : ℝ := if b < a then b else a

/-- Constructor `Camera::Camera()` (camera.cpp, lines 18-30).  `SLOW_ROTATION_SPEED` is
declared in `camera.h`, which is not part of the sources at hand, so it is a
parameter. -/
def Camera.new (SLOW_ROTATION_SPEED : ℝ) : Camera :=
  { _cameraHeight := 0
    _cameraDistance := 20
    _modelRotationX := 0
    _modelRotationY := 0
    _modelRotationZ := 0
    _autoRotate := true
    _autoRotationSpeed := SLOW_ROTATION_SPEED
    _viewAngle := 0 }

/-- Method `Camera::setHeight` (camera.cpp, lines 32-34). -/
def Camera.setHeight (c : Camera) (height : ℝ) : Camera :=
  { c with _cameraHeight := height }

/-- Method `Camera::setDistance` (camera.cpp, lines 36-38). -/
def Camera.setDistance (c : Camera) (distance : ℝ) : Camera :=
  { c with _cameraDistance := stdMax 1 distance }

/-- Method `Camera::setCameraDistance` (camera.cpp, lines 40-42). -/
def Camera.setCameraDistance (c : Camera) (distance : ℝ) : Camera :=
  c.setDistance distance

/-- Method `Camera::calculateTilt` (camera.cpp, lines 44-46). -/
def Camera.calculateTilt (c : Camera) : ℝ := c._viewAngle

/-! ## The wrap loops -/

/-- The loop `while (a < 0.0f) { a += static_cast<float>(M_PI * 2.0f); }`
(camera.cpp, lines 66-68 and 74-76). -/
def whileNegativeAdd (a : ℝ) : ℝ :=
  if a < 0 then whileNegativeAdd (a + TWO_PI) else a
termination_by Nat.ceil (-a / TWO_PI)
decreasing_by
  have hT : 0 < TWO_PI := by
    unfold TWO_PI
    linarith [Real.pi_pos]
  have hrw : -(a + TWO_PI) / TWO_PI = -a / TWO_PI - 1 := by
    field_simp
    ring
  have hpos : 0 < -a / TWO_PI := div_pos (by linarith) hT
  rw [hrw, Nat.lt_ceil]
  rcases le_or_lt 0 (-a / TWO_PI - 1) with h1 | h1
  · linarith [Nat.ceil_lt_add_one h1]
  · rw [Nat.ceil_eq_zero.mpr (le_of_lt h1)]
    simpa using hpos

/-- The loop `while (a >= static_cast<float>(M_PI * 2.0f)) { a -= static_cast<float>(M_PI * 2.0f); }`
(camera.cpp, lines 69-71 and 77-79). -/
def whileAtLeastSub (a : ℝ) : ℝ :=
  if a ≥ TWO_PI then whileAtLeastSub (a - TWO_PI) else a
termination_by Nat.ceil (a / TWO_PI)
decreasing_by
  have hT : 0 < TWO_PI := by
    unfold TWO_PI
    linarith [Real.pi_pos]
  have hrw : (a - TWO_PI) / TWO_PI = a / TWO_PI - 1 := by
    field_simp
  have hpos : 0 < a / TWO_PI := div_pos (by linarith) hT
  rw [hrw, Nat.lt_ceil]
  rcases le_or_lt 0 (a / TWO_PI - 1) with h1 | h1
  · linarith [Nat.ceil_lt_add_one h1]
  · rw [Nat.ceil_eq_zero.mpr (le_of_lt h1)]
    simpa using hpos

/-- The loop `while (a > 2.0f * M_PI) { a -= 2.0f * M_PI; }`
(camera.cpp, lines 100-102). -/
def whileAboveSub (a : ℝ) : ℝ :=
  if a > TWO_PI then whileAboveSub (a - TWO_PI) else a
termination_by Nat.ceil (a / TWO_PI)
decreasing_by
  have hT : 0 < TWO_PI := by
    unfold TWO_PI
    linarith [Real.pi_pos]
  have hrw : (a - TWO_PI) / TWO_PI = a / TWO_PI - 1 := by
    field_simp
  have hpos : 0 < a / TWO_PI := div_pos (by linarith) hT
  rw [hrw, Nat.lt_ceil]
  rcases le_or_lt 0 (a / TWO_PI - 1) with h1 | h1
  · linarith [Nat.ceil_lt_add_one h1]
  · rw [Nat.ceil_eq_zero.mpr (le_of_lt h1)]
    simpa using hpos

/-! ## Rotation updates -/

/-- Method `Camera::updateModelRotation` (camera.cpp, lines 48-80). -/
def Camera.updateModelRotation (c : Camera) (deltaX deltaY : ℝ) : Camera :=
  -- _modelRotationY -= deltaX;
  let rotY := c._modelRotationY - deltaX
  let cosY := Real.cos rotY
  -- (the source also computes sinY = std::sin(_modelRotationY) and never reads it)
  -- _modelRotationX -= deltaY * (cosY > 0 ? 1.0f : -1.0f);
  let rotX := c._modelRotationX - deltaY * (if cosY > 0 then 1 else -1)
  let rotX := whileNegativeAdd rotX
  let rotX := whileAtLeastSub rotX
  let rotY := whileNegativeAdd rotY
  let rotY := whileAtLeastSub rotY
  { c with _modelRotationX := rotX, _modelRotationY := rotY }

/-- Method `Camera::resetModelRotation` (camera.cpp, lines 82-86). -/
def Camera.resetModelRotation (c : Camera) : Camera :=
  { c with _modelRotationX := 0, _modelRotationY := 0, _modelRotationZ := 0 }

/-- Method `Camera::resetRotation` (camera.cpp, lines 88-90). -/
def Camera.resetRotation (c : Camera) : Camera :=
  c.resetModelRotation

/-- Method `Camera::updateAutoRotation` (camera.cpp, lines 92-104). -/
def Camera.updateAutoRotation (c : Camera) (deltaTime : ℝ) : Camera :=
  if c._autoRotate then
    let cappedDelta := stdMin deltaTime 0.1
    let rotY := c._modelRotationY + c._autoRotationSpeed * cappedDelta
    { c with _modelRotationY := whileAboveSub rotY }
  else
    c

/-- Method `Camera::toggleAutoRotation` (camera.cpp, lines 106-108). -/
def Camera.toggleAutoRotation (c : Camera) : Camera :=
  { c with _autoRotate := !c._autoRotate }

/-! ## Matrices -/

/-- A `float matrix[16]`. -/
abbrev Mat16 := Fin 16 → ℝ

/-- The store `matrix[i] = v`. -/
def setEntry (matrix : Mat16) (i : Fin 16) (v : ℝ) : Mat16 :=
  fun j => if j = i then v else matrix j

/-- The loop `for (int i = 0; i < 16; i++) matrix[i] = (i % 5 == 0) ? 1.0f : 0.0f;`
(camera.cpp, lines 112-114 and 213-215). -/
def initIdentity : Mat16 :=
  fun i => if i.val % 5 = 0 then 1 else 0

/-- Three `float` locals that the source names `fooX`, `fooY`, `fooZ`. -/
structure Vec3 where
  x : ℝ
  y : ℝ
  z : ℝ

/-- The locals `eyeX, eyeY, eyeZ` of `calculateViewMatrix` (camera.cpp, lines 117-124). -/
def Camera.eye (c : Camera) : Vec3 :=
  let tilt := c._viewAngle
  let cosTilt := Real.cos tilt
  let sinTilt := Real.sin tilt
  { x := 0, y := c._cameraDistance * sinTilt, z := c._cameraDistance * cosTilt }

/-- The locals `forwardX, forwardY, forwardZ` before normalisation
(camera.cpp, lines 127-134): `center - eye` with `center = (0, 0, 0)`. -/
def Camera.forwardRaw (c : Camera) : Vec3 :=
  let centerX : ℝ := 0
  let centerY : ℝ := 0
  let centerZ : ℝ := 0
  { x := centerX - c.eye.x, y := centerY - c.eye.y, z := centerZ - c.eye.z }

/-- The local `forwardLength` (camera.cpp, line 137). -/
def Camera.forwardLength (c : Camera) : ℝ :=
  let f := c.forwardRaw
  Real.sqrt (f.x * f.x + f.y * f.y + f.z * f.z)

/-- The locals `forwardX, forwardY, forwardZ` after the guarded normalisation
(camera.cpp, lines 138-142). -/
def Camera.forward (c : Camera) : Vec3 :=
  let f := c.forwardRaw
  let forwardLength := c.forwardLength
  if forwardLength > 0.0001 then
    { x := f.x / forwardLength, y := f.y / forwardLength, z := f.z / forwardLength }
  else
    f

/-- The local `isLookingDown` (camera.cpp, line 150). -/
abbrev Camera.isLookingDown (c : Camera) : Prop :=
  Real.sin c._viewAngle > 0.99

/-- The locals `upX, upY, upZ` (camera.cpp, lines 155-157 and 165-167). -/
def Camera.worldUp (c : Camera) : Vec3 :=
  if c.isLookingDown then { x := 0, y := 0, z := 1 } else { x := 0, y := 1, z := 0 }

/-- The right vector of the standard branch before normalisation: the cross
product of forward and world up (camera.cpp, lines 170-172). -/
def Camera.rightRaw (c : Camera) : Vec3 :=
  let f := c.forward
  let up := c.worldUp
  { x := f.y * up.z - f.z * up.y
    y := f.z * up.x - f.x * up.z
    z := f.x * up.y - f.y * up.x }

/-- The local `rightLength` of the standard branch (camera.cpp, line 175). -/
def Camera.rightLength (c : Camera) : ℝ :=
  let r := c.rightRaw
  Real.sqrt (r.x * r.x + r.y * r.y + r.z * r.z)

/-- The locals `rightX, rightY, rightZ` as they stand after the `if/else` of
camera.cpp, lines 152-181. -/
def Camera.right (c : Camera) : Vec3 :=
  if c.isLookingDown then
    { x := 1, y := 0, z := 0 }
  else
    let r := c.rightRaw
    let rightLength := c.rightLength
    if rightLength > 0.0001 then
      { x := r.x / rightLength, y := r.y / rightLength, z := r.z / rightLength }
    else
      r

/-- The locals `trueUpX, trueUpY, trueUpZ`: the cross product of right and
forward (camera.cpp, lines 184-186). -/
def Camera.trueUp (c : Camera) : Vec3 :=
  let r := c.right
  let f := c.forward
  { x := r.y * f.z - r.z * f.y
    y := r.z * f.x - r.x * f.z
    z := r.x * f.y - r.y * f.x }

/-- Method `Camera::calculateViewMatrix` (camera.cpp, lines 110-209). -/
def Camera.calculateViewMatrix (c : Camera) : Mat16 :=
  let matrix := initIdentity
  let eye := c.eye
  let forward := c.forward
  let right := c.right
  let trueUp := c.trueUp
  let matrix := setEntry matrix 0 right.x
  let matrix := setEntry matrix 1 right.y
  let matrix := setEntry matrix 2 right.z
  let matrix := setEntry matrix 3 0
  let matrix := setEntry matrix 4 trueUp.x
  let matrix := setEntry matrix 5 trueUp.y
  let matrix := setEntry matrix 6 trueUp.z
  let matrix := setEntry matrix 7 0
  let matrix := setEntry matrix 8 (-forward.x)
  let matrix := setEntry matrix 9 (-forward.y)
  let matrix := setEntry matrix 10 (-forward.z)
  let matrix := setEntry matrix 11 0
  let matrix := setEntry matrix 12 (-(right.x * eye.x + right.y * eye.y + right.z * eye.z))
  let matrix := setEntry matrix 13 (-(trueUp.x * eye.x + trueUp.y * eye.y + trueUp.z * eye.z))
  let matrix := setEntry matrix 14
    (-(-forward.x * eye.x + -forward.y * eye.y + -forward.z * eye.z))
  let matrix := setEntry matrix 15 1
  matrix

/-- Method `Camera::getModelRotationMatrix` (camera.cpp, lines 211-249). -/
def Camera.getModelRotationMatrix (c : Camera) : Mat16 :=
  let matrix := initIdentity
  let cosY := Real.cos c._modelRotationY
  let sinY := Real.sin c._modelRotationY
  let matrix := setEntry matrix 0 cosY
  let matrix := setEntry matrix 2 (-sinY)
  let matrix := setEntry matrix 8 sinY
  let matrix := setEntry matrix 10 cosY
  if c._modelRotationX ≠ 0 then
    let cosX := Real.cos c._modelRotationX
    let sinX := Real.sin c._modelRotationX
    let tempMatrix := matrix
    let matrix := setEntry matrix 4 (tempMatrix 4 * cosX + tempMatrix 8 * sinX)
    let matrix := setEntry matrix 5 (tempMatrix 5 * cosX + tempMatrix 9 * sinX)
    let matrix := setEntry matrix 6 (tempMatrix 6 * cosX + tempMatrix 10 * sinX)
    let matrix := setEntry matrix 7 (tempMatrix 7 * cosX + tempMatrix 11 * sinX)
    let matrix := setEntry matrix 8 (tempMatrix 4 * -sinX + tempMatrix 8 * cosX)
    let matrix := setEntry matrix 9 (tempMatrix 5 * -sinX + tempMatrix 9 * cosX)
    let matrix := setEntry matrix 10 (tempMatrix 6 * -sinX + tempMatrix 10 * cosX)
    let matrix := setEntry matrix 11 (tempMatrix 7 * -sinX + tempMatrix 11 * cosX)
    matrix
  else
    matrix

/-! ## Zoom presets -/

/-- Modelled from the spec: the preset table behind `WebPlatform::setZoomLevel`.
The function is declared in web_platform.h (line 175) but its body is not among
the sources.  The spec (sections 3 and 6) gives each `ZoomLevel` a fixed camera
distance: close 22.0, normal 28.0, far 55.0, which are the constants
`CAMERA_CLOSE_DISTANCE`, `CAMERA_NORMAL_DISTANCE`, `CAMERA_FAR_DISTANCE`. -/
def zoomPresetDistance : ZoomLevel → ℝ
  | .CLOSE => CAMERA_CLOSE_DISTANCE
  | .NORMAL => CAMERA_NORMAL_DISTANCE
  | .FAR => CAMERA_FAR_DISTANCE

/-- Modelled from the spec: `WebPlatform::setZoomLevel`, whose body is not among
the sources.  Spec section 4.3: it "looks up the preset distance for
{CLOSE, NORMAL, FAR} and applies it to CameraState in one step"; the distance
is applied through `Camera::setDistance`. -/
def setZoomLevel (c : Camera) (level : ZoomLevel) : Camera :=
  c.setDistance (zoomPresetDistance level)

/-! ## Reading a matrix in column-major order -/

/-- The 4x4 matrix that a 16-float array denotes in column-major order: entry
(row `r`, column `k`) is `m[4 * k + r]`, the layout in which the translation sits
in entries 12, 13, 14.  Each inner row below is one row of the matrix. -/
def Mat16.toMatrix (m : Mat16) : Matrix (Fin 4) (Fin 4) ℝ :=
  Matrix.of ![![m 0, m 4, m 8, m 12],
              ![m 1, m 5, m 9, m 13],
              ![m 2, m 6, m 10, m 14],
              ![m 3, m 7, m 11, m 15]]

/-- Image of the point `(v.x, v.y, v.z, 1)` under the matrix (column vectors,
column-major storage), first three coordinates. -/
def Mat16.transformPoint (m : Mat16) (v : Vec3) : Vec3 :=
  { x := m 0 * v.x + m 4 * v.y + m 8 * v.z + m 12
    y := m 1 * v.x + m 5 * v.y + m 9 * v.z + m 13
    z := m 2 * v.x + m 6 * v.y + m 10 * v.z + m 14 }

/-- Image of the direction `(v.x, v.y, v.z, 0)` under the matrix (column
vectors, column-major storage), first three coordinates. -/
def Mat16.transformDirection (m : Mat16) (v : Vec3) : Vec3 :=
  { x := m 0 * v.x + m 4 * v.y + m 8 * v.z
    y := m 1 * v.x + m 5 * v.y + m 9 * v.z
    z := m 2 * v.x + m 6 * v.y + m 10 * v.z }

/-- Dot product of two triples. -/
def Vec3.dot (a b : Vec3) : ℝ := a.x * b.x + a.y * b.y + a.z * b.z

/-- Standard rotation about the Y axis by the angle `t`, as a 4x4 matrix
(each inner row is one row of the matrix). -/
def rotationY (t : ℝ) : Matrix (Fin 4) (Fin 4) ℝ :=
  Matrix.of ![![Real.cos t, 0, Real.sin t, 0],
              ![0, 1, 0, 0],
              ![-Real.sin t, 0, Real.cos t, 0],
              ![0, 0, 0, 1]]

/-- Standard rotation about the X axis by the angle `t`, as a 4x4 matrix
(each inner row is one row of the matrix). -/
def rotationX (t : ℝ) : Matrix (Fin 4) (Fin 4) ℝ :=
  Matrix.of ![![1, 0, 0, 0],
              ![0, Real.cos t, -Real.sin t, 0],
              ![0, Real.sin t, Real.cos t, 0],
              ![0, 0, 0, 1]]

/-! ## Loops with a bound on the number of passes -/

/-- A loop `while (cond(a)) { a = body(a); }` run with at most `fuel + 1` tests
of its condition: `some` of the final value when the condition fails within the
bound, `none` when the bound is used up first. -/
def whileLoop (cond : ℝ → Prop) [DecidablePred cond] (body : ℝ → ℝ) : ℕ → ℝ → Option ℝ
  | 0, a => if cond a then none else some a
  | fuel + 1, a => if cond a then whileLoop cond body fuel (body a) else some a

/-! ## Sequences of calls -/

/-- One call of a state-changing member function of `Camera` declared in
camera.cpp, with its arguments. -/
inductive CameraOp where
  | setHeight (height : ℝ)
  | setDistance (distance : ℝ)
  | setCameraDistance (distance : ℝ)
  | updateModelRotation (deltaX deltaY : ℝ)
  | resetModelRotation
  | resetRotation
  | updateAutoRotation (deltaTime : ℝ)
  | toggleAutoRotation

/-- The state after one call. -/
def CameraOp.run (c : Camera) : CameraOp → Camera
  | .setHeight height => c.setHeight height
  | .setDistance distance => c.setDistance distance
  | .setCameraDistance distance => c.setCameraDistance distance
  | .updateModelRotation deltaX deltaY => c.updateModelRotation deltaX deltaY
  | .resetModelRotation => c.resetModelRotation
  | .resetRotation => c.resetRotation
  | .updateAutoRotation deltaTime => c.updateAutoRotation deltaTime
  | .toggleAutoRotation => c.toggleAutoRotation

/-- The state after a sequence of calls, the first call first. -/
def Camera.runAll (c : Camera) (ops : List CameraOp) : Camera :=
  ops.foldl CameraOp.run c

/-! ## The rotation block of a matrix -/

/-- The upper-left 3x3 block of the 4x4 matrix that a 16-float array denotes in
column-major order: entry (row `r`, column `k`) is `m[4 * k + r]` for
`r, k < 3`.  Each inner row below is one row of the block. -/
def Mat16.rotationBlock (m : Mat16) : Matrix (Fin 3) (Fin 3) ℝ :=
  Matrix.of ![![m 0, m 4, m 8],
              ![m 1, m 5, m 9],
              ![m 2, m 6, m 10]]

/-! ## Binary32 arithmetic -/

/-- Rounding of a real to the nearest integer, a tie going to the even one. -/
def roundHalfEven (n : ℝ) : ℤ :=
  let lo : ℤ := Int.floor n
  let frac : ℝ := n - lo
  if frac < 1 / 2 then lo
  else if frac > 1 / 2 then lo + 1
  else if lo % 2 = 0 then lo
  else lo + 1

/-- Unit in the last place of binary32 at `x`: `2 ^ (e - 23)` for the exponent
`e` with `2 ^ e ≤ |x| < 2 ^ (e + 1)` (24 significant bits). -/
def ulpF32 (x : ℝ) : ℝ := (2 : ℝ) ^ (Int.log 2 |x| - 23)

/-- The binary32 value of a real under the default IEEE 754 rounding (to
nearest, ties to even): the multiple of the unit in the last place nearest to
`x`.  The limits of the exponent range (overflow above `2 ^ 128`, subnormal
numbers below `2 ^ (-126)`) are not modelled. -/
def roundF32 (x : ℝ) : ℝ :=
  if x = 0 then 0 else roundHalfEven (x / ulpF32 x) * ulpF32 x

/-- The `double` constant `M_PI` of `<cmath>`, `0x400921FB54442D18`, which is
`884279719003555 / 2 ^ 48`. -/
def M_PI_F64 : ℝ := 884279719003555 / 281474976710656

/-- The `float` value `static_cast<float>(M_PI * 2.0f)` (camera.cpp, lines 67,
69, 70, 75, 77, 78): the product is formed in `double`, where doubling is exact,
and then rounded to binary32. -/
def TWO_PI_F32 : ℝ := roundF32 (M_PI_F64 * 2)

/-- Method `Camera::updateModelRotation` (camera.cpp, lines 48-80) at binary32
precision: every arithmetic result is rounded by `roundF32`, and each of the
four loops is run with at most `fuel + 1` tests of its condition, so the result
is `none` when a loop does not exit within that bound.  `cosF` stands for the
`float` overload of the library function `std::cos`. -/
def Camera.updateModelRotationF32 (cosF : ℝ → ℝ) (fuel : ℕ) (c : Camera)
    (deltaX deltaY : ℝ) : Option Camera :=
  -- _modelRotationY -= deltaX;
  let rotY := roundF32 (c._modelRotationY - deltaX)
  let cosY := cosF rotY
  -- _modelRotationX -= deltaY * (cosY > 0 ? 1.0f : -1.0f);
  let rotX := roundF32 (c._modelRotationX - roundF32 (deltaY * (if cosY > 0 then 1 else -1)))
  (whileLoop (fun a => a < 0) (fun a => roundF32 (a + TWO_PI_F32)) fuel rotX).bind
    fun rotX =>
  (whileLoop (fun a => a ≥ TWO_PI_F32) (fun a => roundF32 (a - TWO_PI_F32)) fuel rotX).bind
    fun rotX =>
  (whileLoop (fun a => a < 0) (fun a => roundF32 (a + TWO_PI_F32)) fuel rotY).bind
    fun rotY =>
  (whileLoop (fun a => a ≥ TWO_PI_F32) (fun a => roundF32 (a - TWO_PI_F32)) fuel rotY).bind
    fun rotY =>
  some { c with _modelRotationX := rotX, _modelRotationY := rotY }

/-! ## Facts about the wrap loops -/

theorem TWO_PI_pos : 0 < TWO_PI := by
  unfold TWO_PI
  linarith [Real.pi_pos]

theorem whileNegativeAdd_nonneg (a : ℝ) : 0 ≤ whileNegativeAdd a := by
  induction a using whileNegativeAdd.induct with
  | case1 a h ih =>
    rw [whileNegativeAdd, if_pos h]
    exact ih
  | case2 a h =>
    rw [whileNegativeAdd, if_neg h]
    exact not_lt.mp h

theorem whileAtLeastSub_lt (a : ℝ) : whileAtLeastSub a < TWO_PI := by
  induction a using whileAtLeastSub.induct with
  | case1 a h ih =>
    rw [whileAtLeastSub, if_pos h]
    exact ih
  | case2 a h =>
    rw [whileAtLeastSub, if_neg h]
    exact not_le.mp h

theorem whileAtLeastSub_nonneg (a : ℝ) (ha : 0 ≤ a) : 0 ≤ whileAtLeastSub a := by
  induction a using whileAtLeastSub.induct with
  | case1 a h ih =>
    rw [whileAtLeastSub, if_pos h]
    exact ih (by linarith)
  | case2 a h =>
    rw [whileAtLeastSub, if_neg h]
    exact ha

/-- The two loops of `updateModelRotation`, one after the other, end in `[0, 2π)`. -/
theorem wrap_in_range (a : ℝ) :
    0 ≤ whileAtLeastSub (whileNegativeAdd a) ∧ whileAtLeastSub (whileNegativeAdd a) < TWO_PI :=
  ⟨whileAtLeastSub_nonneg _ (whileNegativeAdd_nonneg a), whileAtLeastSub_lt _⟩

theorem whileNegativeAdd_of_nonneg (a : ℝ) (h : 0 ≤ a) : whileNegativeAdd a = a := by
  rw [whileNegativeAdd, if_neg (not_lt.mpr h)]

theorem whileAtLeastSub_of_lt (a : ℝ) (h : a < TWO_PI) : whileAtLeastSub a = a := by
  rw [whileAtLeastSub, if_neg (not_le.mpr h)]

theorem whileAboveSub_of_le (a : ℝ) (h : a ≤ TWO_PI) : whileAboveSub a = a := by
  rw [whileAboveSub, if_neg (not_lt.mpr h)]

/-- The upward loop adds a whole number of turns. -/
theorem whileNegativeAdd_turns (a : ℝ) : ∃ k : ℕ, whileNegativeAdd a = a + k * TWO_PI := by
  induction a using whileNegativeAdd.induct with
  | case1 a h ih =>
    obtain ⟨k, hk⟩ := ih
    refine ⟨k + 1, ?_⟩
    rw [whileNegativeAdd, if_pos h, hk]
    push_cast
    ring
  | case2 a h =>
    refine ⟨0, ?_⟩
    rw [whileNegativeAdd, if_neg h]
    simp

/-- The downward loop with `>=` removes a whole number of turns. -/
theorem whileAtLeastSub_turns (a : ℝ) : ∃ k : ℕ, whileAtLeastSub a = a - k * TWO_PI := by
  induction a using whileAtLeastSub.induct with
  | case1 a h ih =>
    obtain ⟨k, hk⟩ := ih
    refine ⟨k + 1, ?_⟩
    rw [whileAtLeastSub, if_pos h, hk]
    push_cast
    ring
  | case2 a h =>
    refine ⟨0, ?_⟩
    rw [whileAtLeastSub, if_neg h]
    simp

/-- The downward loop with `>` removes a whole number of turns. -/
theorem whileAboveSub_turns (a : ℝ) : ∃ k : ℕ, whileAboveSub a = a - k * TWO_PI := by
  induction a using whileAboveSub.induct with
  | case1 a h ih =>
    obtain ⟨k, hk⟩ := ih
    refine ⟨k + 1, ?_⟩
    rw [whileAboveSub, if_pos h, hk]
    push_cast
    ring
  | case2 a h =>
    refine ⟨0, ?_⟩
    rw [whileAboveSub, if_neg h]
    simp

/-- The two loops of `updateModelRotation` change an angle by a whole number of turns. -/
theorem wrap_turns (a : ℝ) :
    ∃ k : ℤ, whileAtLeastSub (whileNegativeAdd a) = a + k * (2 * Real.pi) := by
  obtain ⟨i, hi⟩ := whileNegativeAdd_turns a
  obtain ⟨j, hj⟩ := whileAtLeastSub_turns (whileNegativeAdd a)
  refine ⟨(i : ℤ) - (j : ℤ), ?_⟩
  rw [hj, hi]
  unfold TWO_PI
  push_cast
  ring

/-- No nonzero whole number of turns equals a length `x` with `0 < |x| < 2π`. -/
theorem not_turns_of_small (x : ℝ) (h0 : x ≠ 0) (h1 : |x| < 2 * Real.pi) (k : ℤ) :
    x ≠ k * (2 * Real.pi) := by
  intro h
  have hpi := Real.pi_pos
  rcases lt_trichotomy k 0 with hk | hk | hk
  · have hk1 : (k : ℝ) ≤ -1 := by exact_mod_cast Int.le_sub_one_of_lt hk
    have : x ≤ -(2 * Real.pi) := by
      rw [h]
      nlinarith
    have := neg_abs_le x
    linarith
  · rw [hk] at h
    simp at h
    exact h0 h
  · have hk1 : (1 : ℝ) ≤ k := by exact_mod_cast Int.add_one_le_of_lt hk
    have : 2 * Real.pi ≤ x := by
      rw [h]
      nlinarith
    have := le_abs_self x
    linarith

theorem stdMin_eq_min (a b : ℝ) : stdMin a b = min a b := by
  unfold stdMin
  split_ifs with h
  · exact (min_eq_right (le_of_lt h)).symm
  · exact (min_eq_left (not_lt.mp h)).symm

/-! ## Claims -/

/-- C1: after `updateModelRotation`, whatever the state and the deltas, the
pitch and the yaw both lie in `[0, 2π)`; the same holds for the call that ends
any sequence of calls. -/
theorem updateModelRotation_angles_in_range (c : Camera) (deltaX deltaY : ℝ)
    (earlier : List (ℝ × ℝ)) :
    (0 ≤ (c.updateModelRotation deltaX deltaY)._modelRotationX
      ∧ (c.updateModelRotation deltaX deltaY)._modelRotationX < 2 * Real.pi
      ∧ 0 ≤ (c.updateModelRotation deltaX deltaY)._modelRotationY
      ∧ (c.updateModelRotation deltaX deltaY)._modelRotationY < 2 * Real.pi)
    ∧ (0 ≤ ((earlier.foldl (fun s d => s.updateModelRotation d.1 d.2) c).updateModelRotation
            deltaX deltaY)._modelRotationX
      ∧ ((earlier.foldl (fun s d => s.updateModelRotation d.1 d.2) c).updateModelRotation
            deltaX deltaY)._modelRotationX < 2 * Real.pi
      ∧ 0 ≤ ((earlier.foldl (fun s d => s.updateModelRotation d.1 d.2) c).updateModelRotation
            deltaX deltaY)._modelRotationY
      ∧ ((earlier.foldl (fun s d => s.updateModelRotation d.1 d.2) c).updateModelRotation
            deltaX deltaY)._modelRotationY < 2 * Real.pi) := by
  have key : ∀ s : Camera,
      0 ≤ (s.updateModelRotation deltaX deltaY)._modelRotationX
      ∧ (s.updateModelRotation deltaX deltaY)._modelRotationX < 2 * Real.pi
      ∧ 0 ≤ (s.updateModelRotation deltaX deltaY)._modelRotationY
      ∧ (s.updateModelRotation deltaX deltaY)._modelRotationY < 2 * Real.pi := by
    intro s
    have h2 : TWO_PI = 2 * Real.pi := by
      unfold TWO_PI
      ring
    rw [← h2]
    simp only [Camera.updateModelRotation]
    exact ⟨(wrap_in_range _).1, (wrap_in_range _).2, (wrap_in_range _).1, (wrap_in_range _).2⟩
  exact ⟨key c, key _⟩

/-- C8: `setDistance d` stores `max 1 d`: `d` itself when `d ≥ 1`, exactly `1`
otherwise, never less than `1`; every other field keeps its value; and
`setCameraDistance d` gives the same state. -/
theorem setDistance_clamps (c : Camera) (d : ℝ) :
    (c.setDistance d)._cameraDistance = max 1 d
    ∧ (c.setDistance d)._cameraDistance = (if 1 ≤ d then d else 1)
    ∧ 1 ≤ (c.setDistance d)._cameraDistance
    ∧ (c.setDistance d)._cameraHeight = c._cameraHeight
    ∧ (c.setDistance d)._modelRotationX = c._modelRotationX
    ∧ (c.setDistance d)._modelRotationY = c._modelRotationY
    ∧ (c.setDistance d)._modelRotationZ = c._modelRotationZ
    ∧ (c.setDistance d)._autoRotate = c._autoRotate
    ∧ (c.setDistance d)._autoRotationSpeed = c._autoRotationSpeed
    ∧ (c.setDistance d)._viewAngle = c._viewAngle
    ∧ c.setCameraDistance d = c.setDistance d := by
  have h : stdMax 1 d = max 1 d := by
    unfold stdMax
    split_ifs with h1
    · exact (max_eq_right (le_of_lt h1)).symm
    · exact (max_eq_left (not_lt.mp h1)).symm
  refine ⟨h, ?_, ?_, rfl, rfl, rfl, rfl, rfl, rfl, rfl, rfl⟩
  · show stdMax 1 d = _
    unfold stdMax
    split_ifs with h1 h2 h2
    · rfl
    · exact absurd (le_of_lt h1) h2
    · exact le_antisymm h2 (not_lt.mp h1)
    · rfl
  · show 1 ≤ stdMax 1 d
    rw [h]
    exact le_max_left 1 d

/-! ## Facts about the view basis -/

theorem forwardLength_eq (c : Camera) (hd : 0 ≤ c._cameraDistance) :
    c.forwardLength = c._cameraDistance := by
  have h : (0 - (0 : ℝ)) * (0 - 0)
      + (0 - c._cameraDistance * Real.sin c._viewAngle)
        * (0 - c._cameraDistance * Real.sin c._viewAngle)
      + (0 - c._cameraDistance * Real.cos c._viewAngle)
        * (0 - c._cameraDistance * Real.cos c._viewAngle)
      = c._cameraDistance ^ 2 := by
    have := Real.sin_sq_add_cos_sq c._viewAngle
    linear_combination c._cameraDistance ^ 2 * this
  simp only [Camera.forwardLength, Camera.forwardRaw, Camera.eye]
  rw [h, Real.sqrt_sq hd]

theorem forward_eq (c : Camera) (hd : 1 ≤ c._cameraDistance) :
    c.forward = { x := 0, y := -Real.sin c._viewAngle, z := -Real.cos c._viewAngle } := by
  have hlen := forwardLength_eq c (by linarith)
  have hpos : c._cameraDistance > 0.0001 := by
    norm_num
    linarith
  have hne : c._cameraDistance ≠ 0 := by linarith
  simp only [Camera.forward, hlen, if_pos hpos, Camera.forwardRaw, Camera.eye]
  congr 1
  · simp
  · field_simp
    ring
  · field_simp
    ring

theorem right_eq_of_lookingDown (c : Camera) (h : Real.sin c._viewAngle > 0.99) :
    c.right = { x := 1, y := 0, z := 0 } := by
  simp only [Camera.right, Camera.isLookingDown, if_pos h]

theorem rightRaw_eq_of_not_lookingDown (c : Camera) (hd : 1 ≤ c._cameraDistance)
    (h : ¬ Real.sin c._viewAngle > 0.99) :
    c.rightRaw = { x := Real.cos c._viewAngle, y := 0, z := 0 } := by
  simp only [Camera.rightRaw, forward_eq c hd, Camera.worldUp, Camera.isLookingDown, if_neg h]
  congr 1
  · ring
  · ring
  · ring

theorem rightLength_eq_of_not_lookingDown (c : Camera) (hd : 1 ≤ c._cameraDistance)
    (h : ¬ Real.sin c._viewAngle > 0.99) :
    c.rightLength = |Real.cos c._viewAngle| := by
  simp only [Camera.rightLength, rightRaw_eq_of_not_lookingDown c hd h]
  rw [show Real.cos c._viewAngle * Real.cos c._viewAngle + 0 * 0 + 0 * 0
      = Real.cos c._viewAngle ^ 2 by ring]
  exact Real.sqrt_sq_eq_abs _

/-- All sixteen entries of the view matrix in terms of the basis vectors. -/
theorem calculateViewMatrix_entries (c : Camera) :
    c.calculateViewMatrix 0 = c.right.x ∧ c.calculateViewMatrix 1 = c.right.y
    ∧ c.calculateViewMatrix 2 = c.right.z ∧ c.calculateViewMatrix 3 = 0
    ∧ c.calculateViewMatrix 4 = c.trueUp.x ∧ c.calculateViewMatrix 5 = c.trueUp.y
    ∧ c.calculateViewMatrix 6 = c.trueUp.z ∧ c.calculateViewMatrix 7 = 0
    ∧ c.calculateViewMatrix 8 = -c.forward.x ∧ c.calculateViewMatrix 9 = -c.forward.y
    ∧ c.calculateViewMatrix 10 = -c.forward.z ∧ c.calculateViewMatrix 11 = 0
    ∧ c.calculateViewMatrix 12
        = -(c.right.x * c.eye.x + c.right.y * c.eye.y + c.right.z * c.eye.z)
    ∧ c.calculateViewMatrix 13
        = -(c.trueUp.x * c.eye.x + c.trueUp.y * c.eye.y + c.trueUp.z * c.eye.z)
    ∧ c.calculateViewMatrix 14
        = -(-c.forward.x * c.eye.x + -c.forward.y * c.eye.y + -c.forward.z * c.eye.z)
    ∧ c.calculateViewMatrix 15 = 1 := by
  simp [Camera.calculateViewMatrix, setEntry]

/-- C6: with distance at least 1 and `sin(viewAngle) > 0.99`, the right vector
written to entries 0..2 is exactly (1, 0, 0); the only division of that path is
by `forwardLength`, which equals the distance and passes the `> 0.0001` guard,
so no division by a zero length occurs; and all sixteen entries have the closed
form listed. -/
theorem calculateViewMatrix_lookingDown (c : Camera) (hd : 1 ≤ c._cameraDistance)
    (h : Real.sin c._viewAngle > 0.99) :
    (c.calculateViewMatrix 0 = 1 ∧ c.calculateViewMatrix 1 = 0 ∧ c.calculateViewMatrix 2 = 0)
    ∧ (c.forwardLength = c._cameraDistance ∧ c.forwardLength > 0.0001 ∧ c.forwardLength ≠ 0)
    ∧ c.calculateViewMatrix 3 = 0
    ∧ c.calculateViewMatrix 4 = 0
    ∧ c.calculateViewMatrix 5 = Real.cos c._viewAngle
    ∧ c.calculateViewMatrix 6 = -Real.sin c._viewAngle
    ∧ c.calculateViewMatrix 7 = 0
    ∧ c.calculateViewMatrix 8 = 0
    ∧ c.calculateViewMatrix 9 = Real.sin c._viewAngle
    ∧ c.calculateViewMatrix 10 = Real.cos c._viewAngle
    ∧ c.calculateViewMatrix 11 = 0
    ∧ c.calculateViewMatrix 12 = 0
    ∧ c.calculateViewMatrix 13 = 0
    ∧ c.calculateViewMatrix 14 = -c._cameraDistance
    ∧ c.calculateViewMatrix 15 = 1 := by
  have hlen := forwardLength_eq c (by linarith)
  have hf := forward_eq c hd
  have hr := right_eq_of_lookingDown c h
  have hsc := Real.sin_sq_add_cos_sq c._viewAngle
  obtain ⟨e0, e1, e2, e3, e4, e5, e6, e7, e8, e9, e10, e11, e12, e13, e14, e15⟩ :=
    calculateViewMatrix_entries c
  have hpos : c._cameraDistance > 0.0001 := by
    norm_num
    linarith
  refine ⟨⟨?_, ?_, ?_⟩, ⟨hlen, ?_, ?_⟩, e3, ?_, ?_, ?_, e7, ?_, ?_, ?_, e11, ?_, ?_, ?_, e15⟩
  · rw [e0, hr]
  · rw [e1, hr]
  · rw [e2, hr]
  · rw [hlen]
    exact hpos
  · rw [hlen]
    linarith
  · rw [e4]
    simp [Camera.trueUp, hr, hf]
  · rw [e5]
    simp [Camera.trueUp, hr, hf]
  · rw [e6]
    simp [Camera.trueUp, hr, hf]
  · rw [e8, hf]
    simp
  · rw [e9, hf]
    simp
  · rw [e10, hf]
    simp
  · rw [e12, hr]
    simp [Camera.eye]
  · rw [e13]
    simp only [Camera.trueUp, hr, hf, Camera.eye]
    ring
  · rw [e14, hf]
    simp only [Camera.eye]
    linear_combination (-c._cameraDistance) * hsc

/-- Witness for C6: the constructor state moved to `viewAngle = π/2`. -/
theorem calculateViewMatrix_lookingDown_witness :
    1 ≤ ({ Camera.new 0.4 with _viewAngle := Real.pi / 2 })._cameraDistance
    ∧ Real.sin ({ Camera.new 0.4 with _viewAngle := Real.pi / 2 })._viewAngle > 0.99
    ∧ ({ Camera.new 0.4 with _viewAngle := Real.pi / 2 }).calculateViewMatrix 0 = 1
    ∧ ({ Camera.new 0.4 with _viewAngle := Real.pi / 2 }).calculateViewMatrix 14 = -20 := by
  have hd : 1 ≤ ({ Camera.new 0.4 with _viewAngle := Real.pi / 2 })._cameraDistance := by
    norm_num [Camera.new]
  have hs : Real.sin ({ Camera.new 0.4 with _viewAngle := Real.pi / 2 })._viewAngle > 0.99 := by
    norm_num [Real.sin_pi_div_two]
  obtain ⟨⟨h0, -, -⟩, -, -, -, -, -, -, -, -, -, -, -, -, h14, -⟩ :=
    calculateViewMatrix_lookingDown { Camera.new 0.4 with _viewAngle := Real.pi / 2 } hd hs
  exact ⟨hd, hs, h0, by simpa [Camera.new] using h14⟩

/-- All sixteen entries of the model matrix in closed form; at pitch 0 the
formulas reduce to the entries that the source leaves untouched. -/
theorem getModelRotationMatrix_entries (c : Camera) :
    c.getModelRotationMatrix 0 = Real.cos c._modelRotationY
    ∧ c.getModelRotationMatrix 1 = 0
    ∧ c.getModelRotationMatrix 2 = -Real.sin c._modelRotationY
    ∧ c.getModelRotationMatrix 3 = 0
    ∧ c.getModelRotationMatrix 4 = Real.sin c._modelRotationY * Real.sin c._modelRotationX
    ∧ c.getModelRotationMatrix 5 = Real.cos c._modelRotationX
    ∧ c.getModelRotationMatrix 6 = Real.cos c._modelRotationY * Real.sin c._modelRotationX
    ∧ c.getModelRotationMatrix 7 = 0
    ∧ c.getModelRotationMatrix 8 = Real.sin c._modelRotationY * Real.cos c._modelRotationX
    ∧ c.getModelRotationMatrix 9 = -Real.sin c._modelRotationX
    ∧ c.getModelRotationMatrix 10 = Real.cos c._modelRotationY * Real.cos c._modelRotationX
    ∧ c.getModelRotationMatrix 11 = 0
    ∧ c.getModelRotationMatrix 12 = 0
    ∧ c.getModelRotationMatrix 13 = 0
    ∧ c.getModelRotationMatrix 14 = 0
    ∧ c.getModelRotationMatrix 15 = 1 := by
  by_cases hp : c._modelRotationX = 0
  · simp [Camera.getModelRotationMatrix, setEntry, initIdentity, hp, Fin.coe_ofNat_eq_mod]
  · simp [Camera.getModelRotationMatrix, setEntry, initIdentity, hp, Fin.coe_ofNat_eq_mod]

/-- C7: read column-major, the model matrix is `Ry(yaw) * Rx(pitch)`: the
rotation about world Y right-multiplied by the rotation about X; the roll does
not influence it; and at pitch 0, where the source skips the second step, the
result is the plain `Ry(yaw)`, which is what the general formula gives there. -/
theorem getModelRotationMatrix_eq_yaw_mul_pitch (c : Camera) (roll : ℝ) :
    c.getModelRotationMatrix.toMatrix
        = rotationY c._modelRotationY * rotationX c._modelRotationX
    ∧ ({ c with _modelRotationZ := roll }).getModelRotationMatrix = c.getModelRotationMatrix
    ∧ ({ c with _modelRotationX := 0 }).getModelRotationMatrix.toMatrix
        = rotationY c._modelRotationY
    ∧ rotationY c._modelRotationY * rotationX 0 = rotationY c._modelRotationY := by
  have hmul : ∀ y p : ℝ, ∀ m : Mat16,
      m 0 = Real.cos y → m 1 = 0 → m 2 = -Real.sin y → m 3 = 0
      → m 4 = Real.sin y * Real.sin p → m 5 = Real.cos p → m 6 = Real.cos y * Real.sin p
      → m 7 = 0
      → m 8 = Real.sin y * Real.cos p → m 9 = -Real.sin p → m 10 = Real.cos y * Real.cos p
      → m 11 = 0 → m 12 = 0 → m 13 = 0 → m 14 = 0 → m 15 = 1
      → m.toMatrix = rotationY y * rotationX p := by
    intro y p m e0 e1 e2 e3 e4 e5 e6 e7 e8 e9 e10 e11 e12 e13 e14 e15
    unfold Mat16.toMatrix rotationY rotationX
    rw [e0, e1, e2, e3, e4, e5, e6, e7, e8, e9, e10, e11, e12, e13, e14, e15]
    ext i j
    fin_cases i <;> fin_cases j <;>
      simp [Matrix.mul_apply, Fin.sum_univ_four, Matrix.vecHead, Matrix.vecTail]
  have hzero : ∀ y : ℝ, rotationY y * rotationX 0 = rotationY y := by
    intro y
    unfold rotationY rotationX
    ext i j
    fin_cases i <;> fin_cases j <;>
      simp [Matrix.mul_apply, Fin.sum_univ_four, Matrix.vecHead, Matrix.vecTail]
  refine ⟨?_, rfl, ?_, hzero _⟩
  · obtain ⟨e0, e1, e2, e3, e4, e5, e6, e7, e8, e9, e10, e11, e12, e13, e14, e15⟩ :=
      getModelRotationMatrix_entries c
    exact hmul _ _ _ e0 e1 e2 e3 e4 e5 e6 e7 e8 e9 e10 e11 e12 e13 e14 e15
  · obtain ⟨e0, e1, e2, e3, e4, e5, e6, e7, e8, e9, e10, e11, e12, e13, e14, e15⟩ :=
      getModelRotationMatrix_entries { c with _modelRotationX := 0 }
    rw [← hzero]
    exact hmul _ _ _ e0 e1 e2 e3 e4 e5 e6 e7 e8 e9 e10 e11 e12 e13 e14 e15

/-- C2: `updateAutoRotation` leaves `[0, 2π)`.  From the constructor state
(yaw 0, auto-rotation on) with speed -0.4, a step of 0.1 s ends with yaw -0.04,
below 0: the function has no loop that adds 2π.  And from yaw 0 with speed 20π,
a step of 0.1 s ends with yaw exactly 2π, which the strict test `> 2π` keeps. -/
theorem updateAutoRotation_leaves_range :
    (0 ≤ (Camera.new (-0.4))._modelRotationY
      ∧ (Camera.new (-0.4))._modelRotationY < 2 * Real.pi
      ∧ (Camera.new (-0.4))._autoRotate = true
      ∧ ((Camera.new (-0.4)).updateAutoRotation 0.1)._modelRotationY = -0.04
      ∧ ((Camera.new (-0.4)).updateAutoRotation 0.1)._modelRotationY < 0)
    ∧ (0 ≤ (Camera.new (20 * Real.pi))._modelRotationY
      ∧ (Camera.new (20 * Real.pi))._modelRotationY < 2 * Real.pi
      ∧ (Camera.new (20 * Real.pi))._autoRotate = true
      ∧ ((Camera.new (20 * Real.pi)).updateAutoRotation 0.1)._modelRotationY = 2 * Real.pi
      ∧ ¬ ((Camera.new (20 * Real.pi)).updateAutoRotation 0.1)._modelRotationY
          < 2 * Real.pi) := by
  have hpi := Real.pi_pos
  have e1 : ((Camera.new (-0.4)).updateAutoRotation 0.1)._modelRotationY = -0.04 := by
    simp only [Camera.updateAutoRotation, Camera.new, if_true, stdMin_eq_min, min_self]
    rw [whileAboveSub_of_le]
    · norm_num
    · unfold TWO_PI
      norm_num
      linarith
  have e2 : ((Camera.new (20 * Real.pi)).updateAutoRotation 0.1)._modelRotationY
      = 2 * Real.pi := by
    simp only [Camera.updateAutoRotation, Camera.new, if_true, stdMin_eq_min, min_self]
    rw [whileAboveSub_of_le]
    · ring
    · unfold TWO_PI
      apply le_of_eq
      ring
  refine ⟨⟨?_, ?_, rfl, e1, ?_⟩, ⟨?_, ?_, rfl, e2, ?_⟩⟩
  · simp [Camera.new]
  · simp only [Camera.new]
    linarith
  · rw [e1]
    norm_num
  · simp [Camera.new]
  · simp only [Camera.new]
    linarith
  · rw [e2]
    exact lt_irrefl _

/-- C3: with auto-rotation on and a speed `s ≥ 0`, the yaw handed to the wrap
loop is the old yaw plus exactly `s * min(deltaTime, 0.1)`, an advance of at most
`s * 0.1`; the stored yaw differs from it by a whole number of turns.  With
`s = 0.4` and `deltaTime = 5` the stored yaw is the old yaw plus 0.04 up to whole
turns, and it is not the old yaw plus 2.0 up to whole turns. -/
theorem updateAutoRotation_caps_step (c : Camera) (deltaTime : ℝ)
    (hauto : c._autoRotate = true) (hs : 0 ≤ c._autoRotationSpeed) :
    (c.updateAutoRotation deltaTime)._modelRotationY
        = whileAboveSub (c._modelRotationY + c._autoRotationSpeed * min deltaTime 0.1)
    ∧ c._autoRotationSpeed * min deltaTime 0.1 ≤ c._autoRotationSpeed * 0.1
    ∧ (∃ k : ℕ, (c.updateAutoRotation deltaTime)._modelRotationY
        = c._modelRotationY + c._autoRotationSpeed * min deltaTime 0.1 - k * (2 * Real.pi))
    ∧ (c._autoRotationSpeed = 0.4 → deltaTime = 5 →
        (∃ k : ℕ, (c.updateAutoRotation deltaTime)._modelRotationY
          = c._modelRotationY + 0.04 - k * (2 * Real.pi))
        ∧ ∀ j : ℤ, (c.updateAutoRotation deltaTime)._modelRotationY
          ≠ c._modelRotationY + 2.0 - j * (2 * Real.pi)) := by
  have hyaw : (c.updateAutoRotation deltaTime)._modelRotationY
      = whileAboveSub (c._modelRotationY + c._autoRotationSpeed * min deltaTime 0.1) := by
    simp only [Camera.updateAutoRotation, hauto, if_true, stdMin_eq_min]
  have hturn : ∃ k : ℕ, (c.updateAutoRotation deltaTime)._modelRotationY
      = c._modelRotationY + c._autoRotationSpeed * min deltaTime 0.1 - k * (2 * Real.pi) := by
    obtain ⟨k, hk⟩ :=
      whileAboveSub_turns (c._modelRotationY + c._autoRotationSpeed * min deltaTime 0.1)
    refine ⟨k, ?_⟩
    rw [hyaw, hk]
    unfold TWO_PI
    ring
  refine ⟨hyaw, mul_le_mul_of_nonneg_left (min_le_right _ _) hs, hturn, ?_⟩
  intro h04 h5
  obtain ⟨k, hk⟩ := hturn
  have hmin : min deltaTime (0.1 : ℝ) = 0.1 := by
    rw [h5]
    norm_num
  have hk2 : (c.updateAutoRotation deltaTime)._modelRotationY
      = c._modelRotationY + 0.04 - k * (2 * Real.pi) := by
    rw [hk, h04, hmin]
    norm_num
  refine ⟨⟨k, hk2⟩, ?_⟩
  intro j hj
  have hpi := Real.pi_gt_three
  have hne := not_turns_of_small (1.96 : ℝ) (by norm_num)
    (by rw [abs_of_pos (by norm_num)]; linarith) (j - k)
  apply hne
  push_cast
  rw [hk2] at hj
  linarith

/-- Witness for C3: the constructor state with speed 0.4 and `deltaTime = 5`. -/
theorem updateAutoRotation_caps_step_witness :
    (Camera.new 0.4)._autoRotate = true
    ∧ 0 ≤ (Camera.new 0.4)._autoRotationSpeed
    ∧ ((Camera.new 0.4).updateAutoRotation 5)._modelRotationY
        = whileAboveSub ((Camera.new 0.4)._modelRotationY
            + (Camera.new 0.4)._autoRotationSpeed * min 5 0.1)
    ∧ (Camera.new 0.4)._autoRotationSpeed * min 5 0.1
        ≤ (Camera.new 0.4)._autoRotationSpeed * 0.1 := by
  have hs : 0 ≤ (Camera.new 0.4)._autoRotationSpeed := by
    norm_num [Camera.new]
  have h := updateAutoRotation_caps_step (Camera.new 0.4) 5 rfl hs
  exact ⟨rfl, hs, h.1, h.2.1⟩

/-- In the standard branch, when `cos(viewAngle)` passes the `> 0.0001` guard as
a positive number, the normalised right vector is the world X axis. -/
theorem right_eq_of_cos_pos (c : Camera) (hd : 1 ≤ c._cameraDistance)
    (h : ¬ Real.sin c._viewAngle > 0.99) (hc : Real.cos c._viewAngle > 0.0001) :
    c.right = { x := 1, y := 0, z := 0 } := by
  have hlen := rightLength_eq_of_not_lookingDown c hd h
  have hraw := rightRaw_eq_of_not_lookingDown c hd h
  have hpos : 0 < Real.cos c._viewAngle := by
    have : (0 : ℝ) < 0.0001 := by norm_num
    linarith
  rw [abs_of_pos hpos] at hlen
  simp only [Camera.right, Camera.isLookingDown, if_neg h, hlen, if_pos hc, hraw]
  congr 1
  · exact div_self (ne_of_gt hpos)
  · simp
  · simp

/-- Where the view matrix sends the eye position and the viewing direction, for
every tilt at which the right vector is the world X axis (either branch): the
eye goes to `(0, 2 d sin t cos t, -2 d sin² t)` and the unit direction from the
eye to the origin goes to `(0, -2 sin t cos t, sin² t - cos² t)`. -/
theorem calculateViewMatrix_images (c : Camera) (hd : 1 ≤ c._cameraDistance)
    (h : Real.sin c._viewAngle > 0.99 ∨ Real.cos c._viewAngle > 0.0001) :
    c.calculateViewMatrix.transformPoint c.eye
        = { x := 0
            y := 2 * c._cameraDistance * Real.sin c._viewAngle * Real.cos c._viewAngle
            z := -(2 * c._cameraDistance * Real.sin c._viewAngle ^ 2) }
    ∧ c.calculateViewMatrix.transformDirection c.forward
        = { x := 0
            y := -(2 * Real.sin c._viewAngle * Real.cos c._viewAngle)
            z := Real.sin c._viewAngle ^ 2 - Real.cos c._viewAngle ^ 2 } := by
  have hf := forward_eq c hd
  have hr : c.right = { x := 1, y := 0, z := 0 } := by
    by_cases hs : Real.sin c._viewAngle > 0.99
    · exact right_eq_of_lookingDown c hs
    · exact right_eq_of_cos_pos c hd hs (h.resolve_left hs)
  have hsc := Real.sin_sq_add_cos_sq c._viewAngle
  obtain ⟨e0, e1, e2, -, e4, e5, e6, -, e8, e9, e10, -, e12, e13, e14, -⟩ :=
    calculateViewMatrix_entries c
  simp only [Mat16.transformPoint, Mat16.transformDirection, e0, e1, e2, e4, e5, e6, e8, e9,
    e10, e12, e13, e14, Camera.trueUp, hr, hf, Camera.eye]
  constructor
  · congr 1
    · ring
    · ring
    · ring
  · congr 1
    · ring
    · ring
    · ring

/-- C4: the matrix is not a look-at transform for the eye position.  In the
constructor state (distance 20) tilted to `viewAngle = π/2`, the eye is
`(0, 20, 0)`; the matrix sends it to `(0, 0, -40)`, not to the origin, and sends
the unit viewing direction `(0, -1, 0)` to `(0, 0, 1)`, the positive Z axis. -/
theorem calculateViewMatrix_not_lookAt :
    1 ≤ ({ Camera.new 0.4 with _viewAngle := Real.pi / 2 })._cameraDistance
    ∧ ({ Camera.new 0.4 with _viewAngle := Real.pi / 2 }).eye = { x := 0, y := 20, z := 0 }
    ∧ ({ Camera.new 0.4 with _viewAngle := Real.pi / 2 }).forward
        = { x := 0, y := -1, z := 0 }
    ∧ ({ Camera.new 0.4 with _viewAngle := Real.pi / 2 }).calculateViewMatrix.transformPoint
          ({ Camera.new 0.4 with _viewAngle := Real.pi / 2 }).eye
        = { x := 0, y := 0, z := -40 }
    ∧ ({ Camera.new 0.4 with _viewAngle := Real.pi / 2 }).calculateViewMatrix.transformDirection
          ({ Camera.new 0.4 with _viewAngle := Real.pi / 2 }).forward
        = { x := 0, y := 0, z := 1 } := by
  have hd : 1 ≤ ({ Camera.new 0.4 with _viewAngle := Real.pi / 2 })._cameraDistance := by
    norm_num [Camera.new]
  have hs : Real.sin ({ Camera.new 0.4 with _viewAngle := Real.pi / 2 })._viewAngle > 0.99 := by
    norm_num [Real.sin_pi_div_two]
  obtain ⟨hp, hv⟩ := calculateViewMatrix_images _ hd (Or.inl hs)
  refine ⟨hd, ?_, ?_, ?_, ?_⟩
  · simp [Camera.eye, Camera.new]
  · rw [forward_eq _ hd]
    simp
  · rw [hp]
    simp only [Camera.new, Real.sin_pi_div_two, Real.cos_pi_div_two]
    norm_num
  · rw [hv]
    simp only [Real.sin_pi_div_two, Real.cos_pi_div_two]
    norm_num

/-- The three vectors written to entries 0..2, 4..6 and 8..10, for reading. -/
theorem calculateViewMatrix_basis (c : Camera) :
    (⟨c.calculateViewMatrix 0, c.calculateViewMatrix 1, c.calculateViewMatrix 2⟩ : Vec3)
        = c.right
    ∧ (⟨c.calculateViewMatrix 4, c.calculateViewMatrix 5, c.calculateViewMatrix 6⟩ : Vec3)
        = c.trueUp
    ∧ (⟨c.calculateViewMatrix 8, c.calculateViewMatrix 9, c.calculateViewMatrix 10⟩ : Vec3)
        = ⟨-c.forward.x, -c.forward.y, -c.forward.z⟩ := by
  obtain ⟨e0, e1, e2, -, e4, e5, e6, -, e8, e9, e10, -⟩ := calculateViewMatrix_entries c
  rw [e0, e1, e2, e4, e5, e6, e8, e9, e10]
  exact ⟨rfl, rfl, rfl⟩

/-- What does hold of the basis: when the camera looks down (`sin t > 0.99`) or
`|cos t|` passes the `> 0.0001` guard, the three basis vectors are of unit length
and pairwise orthogonal. -/
theorem view_basis_orthonormal_of_guard (c : Camera) (hd : 1 ≤ c._cameraDistance)
    (h : Real.sin c._viewAngle > 0.99 ∨ |Real.cos c._viewAngle| > 0.0001) :
    c.right.dot c.right = 1 ∧ c.trueUp.dot c.trueUp = 1
    ∧ (Vec3.mk (-c.forward.x) (-c.forward.y) (-c.forward.z)).dot
        (Vec3.mk (-c.forward.x) (-c.forward.y) (-c.forward.z)) = 1
    ∧ c.right.dot c.trueUp = 0
    ∧ c.right.dot (Vec3.mk (-c.forward.x) (-c.forward.y) (-c.forward.z)) = 0
    ∧ c.trueUp.dot (Vec3.mk (-c.forward.x) (-c.forward.y) (-c.forward.z)) = 0 := by
  have hf := forward_eq c hd
  have hsc := Real.sin_sq_add_cos_sq c._viewAngle
  have hr : ∃ σ : ℝ, σ * σ = 1 ∧ c.right = { x := σ, y := 0, z := 0 } := by
    by_cases hs : Real.sin c._viewAngle > 0.99
    · exact ⟨1, by norm_num, right_eq_of_lookingDown c hs⟩
    · have hc := h.resolve_left hs
      have hne : |Real.cos c._viewAngle| ≠ 0 := by
        have : (0 : ℝ) < 0.0001 := by norm_num
        linarith
      refine ⟨Real.cos c._viewAngle / |Real.cos c._viewAngle|, ?_, ?_⟩
      · rw [div_mul_div_comm, abs_mul_abs_self]
        exact div_self (mul_self_ne_zero.mpr (abs_ne_zero.mp hne))
      · simp only [Camera.right, Camera.isLookingDown, if_neg hs,
          rightLength_eq_of_not_lookingDown c hd hs, if_pos hc,
          rightRaw_eq_of_not_lookingDown c hd hs]
        simp
  obtain ⟨σ, hσ, hr⟩ := hr
  simp only [Vec3.dot, Camera.trueUp, hr, hf]
  refine ⟨?_, ?_, ?_, ?_, ?_, ?_⟩
  · linear_combination hσ
  · linear_combination (Real.cos c._viewAngle ^ 2 + Real.sin c._viewAngle ^ 2) * hσ + hsc
  · linear_combination hsc
  · ring
  · ring
  · ring

/-- C5: the basis is not orthonormal when the camera looks straight up.  In the
constructor state (distance 20) tilted to `viewAngle = -π/2`, the cross product
of forward and world up is zero, the guard `rightLength > 0.0001` fails, and the
matrix gets the zero vector in entries 0..2 (right) and in entries 4..6 (up). -/
theorem calculateViewMatrix_zero_basis_looking_up :
    1 ≤ ({ Camera.new 0.4 with _viewAngle := -(Real.pi / 2) })._cameraDistance
    ∧ ({ Camera.new 0.4 with _viewAngle := -(Real.pi / 2) }).calculateViewMatrix 0 = 0
    ∧ ({ Camera.new 0.4 with _viewAngle := -(Real.pi / 2) }).calculateViewMatrix 1 = 0
    ∧ ({ Camera.new 0.4 with _viewAngle := -(Real.pi / 2) }).calculateViewMatrix 2 = 0
    ∧ ({ Camera.new 0.4 with _viewAngle := -(Real.pi / 2) }).calculateViewMatrix 4 = 0
    ∧ ({ Camera.new 0.4 with _viewAngle := -(Real.pi / 2) }).calculateViewMatrix 5 = 0
    ∧ ({ Camera.new 0.4 with _viewAngle := -(Real.pi / 2) }).calculateViewMatrix 6 = 0 := by
  have hd : 1 ≤ ({ Camera.new 0.4 with _viewAngle := -(Real.pi / 2) })._cameraDistance := by
    norm_num [Camera.new]
  have hsin : Real.sin ({ Camera.new 0.4 with _viewAngle := -(Real.pi / 2) })._viewAngle
      = -1 := by
    simp [Real.sin_neg]
  have hcos : Real.cos ({ Camera.new 0.4 with _viewAngle := -(Real.pi / 2) })._viewAngle
      = 0 := by
    simp [Real.cos_neg]
  have hs : ¬ Real.sin ({ Camera.new 0.4 with _viewAngle := -(Real.pi / 2) })._viewAngle
      > 0.99 := by
    rw [hsin]
    norm_num
  have hraw := rightRaw_eq_of_not_lookingDown _ hd hs
  have hlen := rightLength_eq_of_not_lookingDown _ hd hs
  rw [hcos] at hraw
  rw [hcos, abs_zero] at hlen
  have hr : ({ Camera.new 0.4 with _viewAngle := -(Real.pi / 2) }).right
      = { x := 0, y := 0, z := 0 } := by
    simp only [Camera.right, Camera.isLookingDown, if_neg hs, hlen, hraw]
    norm_num
  obtain ⟨e0, e1, e2, -, e4, e5, e6, -⟩ := calculateViewMatrix_entries
    { Camera.new 0.4 with _viewAngle := -(Real.pi / 2) }
  refine ⟨hd, ?_, ?_, ?_, ?_, ?_, ?_⟩
  · rw [e0, hr]
  · rw [e1, hr]
  · rw [e2, hr]
  · rw [e4]
    simp [Camera.trueUp, hr]
  · rw [e5]
    simp [Camera.trueUp, hr]
  · rw [e6]
    simp [Camera.trueUp, hr]

/-- The pitch that `updateModelRotation` stores, up to whole turns: the old
pitch minus `deltaY` times the sign factor taken from the yaw after `deltaX` has
been subtracted. -/
theorem updateModelRotation_pitch_turns (c : Camera) (deltaX deltaY : ℝ) :
    ∃ k : ℤ, (c.updateModelRotation deltaX deltaY)._modelRotationX
      = c._modelRotationX
          - deltaY * (if Real.cos (c._modelRotationY - deltaX) > 0 then 1 else -1)
          + k * (2 * Real.pi) := by
  simp only [Camera.updateModelRotation]
  exact wrap_turns _

/-- C9, as stated, fails at two inputs.  From the constructor state (pitch 0,
yaw 0, so cos(yaw) = 1 ≥ 0) the call `updateModelRotation(π, 1)` stores the
pitch 1, which is not congruent to `0 - 1` modulo 2π.  And from yaw π/2 (where
cos(yaw) = 0 ≥ 0) the call `updateModelRotation(0, 1)` stores the pitch 1 as
well. -/
theorem updateModelRotation_pitch_sign_counterexample :
    (Real.cos (Camera.new 0.4)._modelRotationY ≥ 0
      ∧ ((Camera.new 0.4).updateModelRotation Real.pi 1)._modelRotationX = 1
      ∧ ¬ ∃ k : ℤ, ((Camera.new 0.4).updateModelRotation Real.pi 1)._modelRotationX
          = ((Camera.new 0.4)._modelRotationX - 1) + k * (2 * Real.pi))
    ∧ (Real.cos ({ Camera.new 0.4 with _modelRotationY := Real.pi / 2 })._modelRotationY ≥ 0
      ∧ (({ Camera.new 0.4 with _modelRotationY := Real.pi / 2 }).updateModelRotation
            0 1)._modelRotationX = 1
      ∧ ¬ ∃ k : ℤ, (({ Camera.new 0.4 with _modelRotationY := Real.pi / 2 }).updateModelRotation
            0 1)._modelRotationX
          = (({ Camera.new 0.4 with _modelRotationY := Real.pi / 2 })._modelRotationX - 1)
            + k * (2 * Real.pi)) := by
  have hpi := Real.pi_gt_three
  have hlt : (1 : ℝ) < TWO_PI := by
    unfold TWO_PI
    linarith
  have hwrap : whileAtLeastSub (whileNegativeAdd 1) = 1 := by
    rw [whileNegativeAdd_of_nonneg 1 (by norm_num), whileAtLeastSub_of_lt 1 hlt]
  have hno : ¬ ∃ k : ℤ, (1 : ℝ) = (0 - 1) + k * (2 * Real.pi) := by
    rintro ⟨k, hk⟩
    refine not_turns_of_small (2 : ℝ) (by norm_num) ?_ k (by linarith)
    rw [abs_of_pos (by norm_num)]
    linarith
  have e1 : ((Camera.new 0.4).updateModelRotation Real.pi 1)._modelRotationX = 1 := by
    simp only [Camera.updateModelRotation, Camera.new, zero_sub, Real.cos_neg, Real.cos_pi]
    norm_num
    exact hwrap
  have e2 : (({ Camera.new 0.4 with _modelRotationY := Real.pi / 2 }).updateModelRotation
      0 1)._modelRotationX = 1 := by
    simp only [Camera.updateModelRotation, Camera.new, sub_zero, Real.cos_pi_div_two]
    norm_num
    exact hwrap
  refine ⟨⟨?_, e1, ?_⟩, ⟨?_, e2, ?_⟩⟩
  · simp [Camera.new]
  · rw [e1]
    simpa [Camera.new] using hno
  · simp [Real.cos_pi_div_two]
  · rw [e2]
    simpa [Camera.new] using hno

/-- C9, amended: with `y'` the yaw after `deltaX` has been subtracted (before
wrapping), the stored pitch is congruent modulo 2π to the old pitch minus
`deltaY` when `cos(y') > 0`, and to the old pitch plus `deltaY` when
`cos(y') ≤ 0`. -/
theorem updateModelRotation_pitch_sign (c : Camera) (deltaX deltaY : ℝ) :
    (Real.cos (c._modelRotationY - deltaX) > 0 →
      ∃ k : ℤ, (c.updateModelRotation deltaX deltaY)._modelRotationX
        = (c._modelRotationX - deltaY) + k * (2 * Real.pi))
    ∧ (Real.cos (c._modelRotationY - deltaX) ≤ 0 →
      ∃ k : ℤ, (c.updateModelRotation deltaX deltaY)._modelRotationX
        = (c._modelRotationX + deltaY) + k * (2 * Real.pi)) := by
  obtain ⟨k, hk⟩ := updateModelRotation_pitch_turns c deltaX deltaY
  constructor
  · intro h
    refine ⟨k, ?_⟩
    rw [hk, if_pos h]
    ring
  · intro h
    refine ⟨k, ?_⟩
    rw [hk, if_neg (not_lt.mpr h)]
    ring

/-- C10, as stated, fails in its last part: the distance constants declared in
camera.cpp are 7, 20 and 30, and none of them equals the preset of its zoom
level (22, 28, 55). -/
theorem camera_distance_constants_disagree :
    DISTANCE_CLOSE ≠ zoomPresetDistance ZoomLevel.CLOSE
    ∧ DISTANCE_NORMAL ≠ zoomPresetDistance ZoomLevel.NORMAL
    ∧ DISTANCE_FAR ≠ zoomPresetDistance ZoomLevel.FAR
    ∧ ¬ (DISTANCE_CLOSE = 22 ∧ DISTANCE_NORMAL = 28 ∧ DISTANCE_FAR = 55) := by
  simp only [DISTANCE_CLOSE, DISTANCE_NORMAL, DISTANCE_FAR, zoomPresetDistance,
    CAMERA_CLOSE_DISTANCE, CAMERA_NORMAL_DISTANCE, CAMERA_FAR_DISTANCE]
  norm_num

/-- C10, amended: applying a zoom preset through `setDistance` stores exactly
55 for FAR, 22 for CLOSE and 28 for NORMAL, whatever the state before; the
`≥ 1` clamp alters no preset; these are the constants of web_platform.h.  The
constants of camera.cpp are 7, 20 and 30 and take no part in it. -/
theorem setZoomLevel_exact (c : Camera) :
    (setZoomLevel c ZoomLevel.FAR)._cameraDistance = 55
    ∧ (setZoomLevel c ZoomLevel.CLOSE)._cameraDistance = 22
    ∧ (setZoomLevel c ZoomLevel.NORMAL)._cameraDistance = 28
    ∧ (∀ level : ZoomLevel,
        (setZoomLevel c level)._cameraDistance = zoomPresetDistance level
        ∧ stdMax 1 (zoomPresetDistance level) = zoomPresetDistance level)
    ∧ (CAMERA_FAR_DISTANCE = 55 ∧ CAMERA_CLOSE_DISTANCE = 22 ∧ CAMERA_NORMAL_DISTANCE = 28)
    ∧ (DISTANCE_FAR = 30 ∧ DISTANCE_CLOSE = 7 ∧ DISTANCE_NORMAL = 20) := by
  have hclamp : ∀ level : ZoomLevel,
      stdMax 1 (zoomPresetDistance level) = zoomPresetDistance level := by
    intro level
    cases level <;>
      simp only [stdMax, zoomPresetDistance, CAMERA_CLOSE_DISTANCE, CAMERA_NORMAL_DISTANCE,
        CAMERA_FAR_DISTANCE] <;> norm_num
  have hset : ∀ level : ZoomLevel,
      (setZoomLevel c level)._cameraDistance = zoomPresetDistance level := by
    intro level
    simp only [setZoomLevel, Camera.setDistance]
    exact hclamp level
  refine ⟨?_, ?_, ?_, fun level => ⟨hset level, hclamp level⟩, ⟨rfl, rfl, rfl⟩, ⟨rfl, rfl, rfl⟩⟩
  · rw [hset]
    rfl
  · rw [hset]
    rfl
  · rw [hset]
    rfl

/-- C11: with `autoRotate` false, `updateAutoRotation` returns the state it was
given, whatever `deltaTime` is: no field changes. -/
theorem updateAutoRotation_noop_when_off (c : Camera) (deltaTime : ℝ)
    (hoff : c._autoRotate = false) :
    c.updateAutoRotation deltaTime = c := by
  simp [Camera.updateAutoRotation, hoff]

/-- Witness for C11: the constructor state with auto-rotation switched off and
a step of 5 seconds. -/
theorem updateAutoRotation_noop_when_off_witness :
    ({ Camera.new 0.4 with _autoRotate := false })._autoRotate = false
    ∧ ({ Camera.new 0.4 with _autoRotate := false }).updateAutoRotation 5
        = { Camera.new 0.4 with _autoRotate := false } :=
  ⟨rfl, updateAutoRotation_noop_when_off { Camera.new 0.4 with _autoRotate := false } 5 rfl⟩

/-- C12: `updateModelRotation` leaves the roll unchanged, and also the
distance, the height, the view angle, the auto-rotation flag and the
auto-rotation speed; only pitch and yaw are written. -/
theorem updateModelRotation_frame (c : Camera) (deltaX deltaY : ℝ) :
    (c.updateModelRotation deltaX deltaY)._modelRotationZ = c._modelRotationZ
    ∧ (c.updateModelRotation deltaX deltaY)._cameraDistance = c._cameraDistance
    ∧ (c.updateModelRotation deltaX deltaY)._cameraHeight = c._cameraHeight
    ∧ (c.updateModelRotation deltaX deltaY)._viewAngle = c._viewAngle
    ∧ (c.updateModelRotation deltaX deltaY)._autoRotate = c._autoRotate
    ∧ (c.updateModelRotation deltaX deltaY)._autoRotationSpeed = c._autoRotationSpeed
    ∧ c.updateModelRotation deltaX deltaY
        = { c with
            _modelRotationX := (c.updateModelRotation deltaX deltaY)._modelRotationX
            _modelRotationY := (c.updateModelRotation deltaX deltaY)._modelRotationY } :=
  ⟨rfl, rfl, rfl, rfl, rfl, rfl, rfl⟩

/-- C14: `resetModelRotation`, and `resetRotation` alike, set pitch, yaw and
roll to 0 and keep distance, height, view angle, auto-rotation flag and speed;
the model matrix of the state after it is the identity. -/
theorem resetModelRotation_zeroes (c : Camera) :
    (c.resetModelRotation)._modelRotationX = 0
    ∧ (c.resetModelRotation)._modelRotationY = 0
    ∧ (c.resetModelRotation)._modelRotationZ = 0
    ∧ (c.resetModelRotation)._cameraDistance = c._cameraDistance
    ∧ (c.resetModelRotation)._cameraHeight = c._cameraHeight
    ∧ (c.resetModelRotation)._viewAngle = c._viewAngle
    ∧ (c.resetModelRotation)._autoRotate = c._autoRotate
    ∧ (c.resetModelRotation)._autoRotationSpeed = c._autoRotationSpeed
    ∧ c.resetRotation = c.resetModelRotation
    ∧ (c.resetModelRotation).getModelRotationMatrix = initIdentity
    ∧ (c.resetModelRotation).getModelRotationMatrix.toMatrix = 1 := by
  have hm : (c.resetModelRotation).getModelRotationMatrix = initIdentity := by
    funext i
    fin_cases i <;>
      simp [Camera.getModelRotationMatrix, Camera.resetModelRotation, setEntry, initIdentity,
        Fin.coe_ofNat_eq_mod]
  refine ⟨rfl, rfl, rfl, rfl, rfl, rfl, rfl, rfl, rfl, hm, ?_⟩
  rw [hm]
  ext i j
  fin_cases i <;> fin_cases j <;>
    simp [Mat16.toMatrix, initIdentity, Matrix.vecHead, Matrix.vecTail,
      Fin.coe_ofNat_eq_mod]

/-- C15: `toggleAutoRotation` negates the flag and changes no other field;
toggling twice gives back the state. -/
theorem toggleAutoRotation_flips (c : Camera) :
    (c.toggleAutoRotation)._autoRotate = !c._autoRotate
    ∧ (c.toggleAutoRotation)._modelRotationX = c._modelRotationX
    ∧ (c.toggleAutoRotation)._modelRotationY = c._modelRotationY
    ∧ (c.toggleAutoRotation)._modelRotationZ = c._modelRotationZ
    ∧ (c.toggleAutoRotation)._cameraDistance = c._cameraDistance
    ∧ (c.toggleAutoRotation)._cameraHeight = c._cameraHeight
    ∧ (c.toggleAutoRotation)._viewAngle = c._viewAngle
    ∧ (c.toggleAutoRotation)._autoRotationSpeed = c._autoRotationSpeed
    ∧ c.toggleAutoRotation.toggleAutoRotation = c := by
  refine ⟨rfl, rfl, rfl, rfl, rfl, rfl, rfl, rfl, ?_⟩
  cases c
  simp [Camera.toggleAutoRotation]

/-- The upward loop stops within some number of passes, with the value of
`whileNegativeAdd`. -/
theorem whileNegativeAdd_stops (a : ℝ) :
    ∃ fuel : ℕ, whileLoop (fun x => x < 0) (fun x => x + TWO_PI) fuel a
      = some (whileNegativeAdd a) := by
  induction a using whileNegativeAdd.induct with
  | case1 a h ih =>
    obtain ⟨n, hn⟩ := ih
    refine ⟨n + 1, ?_⟩
    rw [whileNegativeAdd, if_pos h]
    simp only [whileLoop, if_pos h]
    exact hn
  | case2 a h =>
    refine ⟨0, ?_⟩
    rw [whileNegativeAdd, if_neg h]
    simp only [whileLoop, if_neg h]

/-- The downward loop with `>=` stops within some number of passes, with the
value of `whileAtLeastSub`. -/
theorem whileAtLeastSub_stops (a : ℝ) :
    ∃ fuel : ℕ, whileLoop (fun x => x ≥ TWO_PI) (fun x => x - TWO_PI) fuel a
      = some (whileAtLeastSub a) := by
  induction a using whileAtLeastSub.induct with
  | case1 a h ih =>
    obtain ⟨n, hn⟩ := ih
    refine ⟨n + 1, ?_⟩
    rw [whileAtLeastSub, if_pos h]
    simp only [whileLoop, if_pos h]
    exact hn
  | case2 a h =>
    refine ⟨0, ?_⟩
    rw [whileAtLeastSub, if_neg h]
    simp only [whileLoop, if_neg h]

/-- The downward loop with `>` stops within some number of passes, with the
value of `whileAboveSub`. -/
theorem whileAboveSub_stops (a : ℝ) :
    ∃ fuel : ℕ, whileLoop (fun x => x > TWO_PI) (fun x => x - TWO_PI) fuel a
      = some (whileAboveSub a) := by
  induction a using whileAboveSub.induct with
  | case1 a h ih =>
    obtain ⟨n, hn⟩ := ih
    refine ⟨n + 1, ?_⟩
    rw [whileAboveSub, if_pos h]
    simp only [whileLoop, if_pos h]
    exact hn
  | case2 a h =>
    refine ⟨0, ?_⟩
    rw [whileAboveSub, if_neg h]
    simp only [whileLoop, if_neg h]

/-- In the real-number model the wrap loops stop.  Each of the three loops, run
with a bound on its passes, returns a value for some finite bound, and that
value is the one the total functions of the embedding compute.  Hence in this
model, for every state and all real `deltaX`, `deltaY`, `deltaTime` (and any
speed, a field of the state), `updateModelRotation` runs its four loops to the
end and `updateAutoRotation` its one loop.  This says nothing about exit at
binary32 precision, where subtracting 2π from a large angle may leave it
unchanged. -/
theorem wrap_loops_terminate (c : Camera) (deltaX deltaY deltaTime a : ℝ) :
    (∃ fuel : ℕ, whileLoop (fun x => x < 0) (fun x => x + TWO_PI) fuel a
      = some (whileNegativeAdd a))
    ∧ (∃ fuel : ℕ, whileLoop (fun x => x ≥ TWO_PI) (fun x => x - TWO_PI) fuel a
      = some (whileAtLeastSub a))
    ∧ (∃ fuel : ℕ, whileLoop (fun x => x > TWO_PI) (fun x => x - TWO_PI) fuel a
      = some (whileAboveSub a))
    ∧ (∃ n1 n2 n3 n4 : ℕ, ∃ x1 x2 y1 y2 : ℝ,
        whileLoop (fun x => x < 0) (fun x => x + TWO_PI) n1
            (c._modelRotationX
              - deltaY * (if Real.cos (c._modelRotationY - deltaX) > 0 then 1 else -1))
          = some x1
        ∧ whileLoop (fun x => x ≥ TWO_PI) (fun x => x - TWO_PI) n2 x1 = some x2
        ∧ whileLoop (fun x => x < 0) (fun x => x + TWO_PI) n3 (c._modelRotationY - deltaX)
          = some y1
        ∧ whileLoop (fun x => x ≥ TWO_PI) (fun x => x - TWO_PI) n4 y1 = some y2
        ∧ c.updateModelRotation deltaX deltaY
          = { c with _modelRotationX := x2, _modelRotationY := y2 })
    ∧ (∃ n : ℕ, ∃ y : ℝ,
        whileLoop (fun x => x > TWO_PI) (fun x => x - TWO_PI) n
            (c._modelRotationY + c._autoRotationSpeed * stdMin deltaTime 0.1)
          = some y
        ∧ c.updateAutoRotation deltaTime
          = if c._autoRotate then { c with _modelRotationY := y } else c) := by
  refine ⟨whileNegativeAdd_stops a, whileAtLeastSub_stops a, whileAboveSub_stops a, ?_, ?_⟩
  · obtain ⟨n1, h1⟩ := whileNegativeAdd_stops
      (c._modelRotationX
        - deltaY * (if Real.cos (c._modelRotationY - deltaX) > 0 then 1 else -1))
    obtain ⟨n2, h2⟩ := whileAtLeastSub_stops (whileNegativeAdd
      (c._modelRotationX
        - deltaY * (if Real.cos (c._modelRotationY - deltaX) > 0 then 1 else -1)))
    obtain ⟨n3, h3⟩ := whileNegativeAdd_stops (c._modelRotationY - deltaX)
    obtain ⟨n4, h4⟩ := whileAtLeastSub_stops (whileNegativeAdd (c._modelRotationY - deltaX))
    exact ⟨n1, n2, n3, n4, _, _, _, _, h1, h2, h3, h4, rfl⟩
  · obtain ⟨n, hn⟩ := whileAboveSub_stops
      (c._modelRotationY + c._autoRotationSpeed * stdMin deltaTime 0.1)
    exact ⟨n, _, hn, rfl⟩

/-- A value of `[0, 2π)` that differs from `a` by whole turns is
`a - 2π ⌊a / 2π⌋`. -/
theorem canonical_of_range (a v : ℝ) (k : ℤ) (h0 : 0 ≤ v) (h1 : v < 2 * Real.pi)
    (hv : v = a + k * (2 * Real.pi)) :
    v = a - 2 * Real.pi * (Int.floor (a / (2 * Real.pi)) : ℤ) := by
  have hpi : 0 < 2 * Real.pi := by linarith [Real.pi_pos]
  have hdiv : a / (2 * Real.pi) = v / (2 * Real.pi) - k := by
    rw [hv]
    field_simp
    ring
  have hfl : Int.floor (v / (2 * Real.pi)) = 0 := by
    rw [Int.floor_eq_zero_iff]
    exact ⟨div_nonneg h0 (le_of_lt hpi), (div_lt_one hpi).mpr h1⟩
  rw [hdiv, Int.floor_sub_int, hfl, hv]
  push_cast
  ring

/-- The two loops of `updateModelRotation` compute the canonical representative. -/
theorem wrap_eq_floor (a : ℝ) :
    whileAtLeastSub (whileNegativeAdd a)
      = a - 2 * Real.pi * (Int.floor (a / (2 * Real.pi)) : ℤ) := by
  obtain ⟨k, hk⟩ := wrap_turns a
  have hr := wrap_in_range a
  have h2 : TWO_PI = 2 * Real.pi := by
    unfold TWO_PI
    ring
  rw [h2] at hr
  exact canonical_of_range a _ k hr.1 hr.2 hk

/-- C16: the yaw stored by `updateModelRotation(deltaX, deltaY)` is
`(y - deltaX) - 2π ⌊(y - deltaX) / 2π⌋`; it lies in `[0, 2π)` and differs from
`y - deltaX` by a whole number of turns; it is the only such value; and it does
not depend on `deltaY`. -/
theorem updateModelRotation_yaw_canonical (c : Camera) (deltaX deltaY otherDeltaY : ℝ) :
    (c.updateModelRotation deltaX deltaY)._modelRotationY
        = (c._modelRotationY - deltaX)
          - 2 * Real.pi * (Int.floor ((c._modelRotationY - deltaX) / (2 * Real.pi)) : ℤ)
    ∧ 0 ≤ (c.updateModelRotation deltaX deltaY)._modelRotationY
    ∧ (c.updateModelRotation deltaX deltaY)._modelRotationY < 2 * Real.pi
    ∧ (∃ k : ℤ, (c.updateModelRotation deltaX deltaY)._modelRotationY
        = (c._modelRotationY - deltaX) + k * (2 * Real.pi))
    ∧ (∀ v : ℝ, 0 ≤ v → v < 2 * Real.pi
        → (∃ k : ℤ, v = (c._modelRotationY - deltaX) + k * (2 * Real.pi))
        → v = (c.updateModelRotation deltaX deltaY)._modelRotationY)
    ∧ (c.updateModelRotation deltaX otherDeltaY)._modelRotationY
        = (c.updateModelRotation deltaX deltaY)._modelRotationY := by
  have hy : (c.updateModelRotation deltaX deltaY)._modelRotationY
      = whileAtLeastSub (whileNegativeAdd (c._modelRotationY - deltaX)) := rfl
  have h2 : TWO_PI = 2 * Real.pi := by
    unfold TWO_PI
    ring
  have hr := wrap_in_range (c._modelRotationY - deltaX)
  rw [h2] at hr
  refine ⟨?_, ?_, ?_, ?_, ?_, rfl⟩
  · rw [hy]
    exact wrap_eq_floor _
  · rw [hy]
    exact hr.1
  · rw [hy]
    exact hr.2
  · rw [hy]
    exact wrap_turns _
  · rintro v h0 h1 ⟨k, hk⟩
    rw [hy, wrap_eq_floor]
    exact canonical_of_range _ v k h0 h1 hk

/-- C17: with `y' = old yaw - deltaX`, the pitch handed to the wrap loops is
the old pitch minus `deltaY` when `cos(y') > 0` and the old pitch plus `deltaY`
when `cos(y') ≤ 0`; in particular the sign is flipped when `y'` is π/2 or 3π/2,
where the cosine is 0. -/
theorem updateModelRotation_pitch_before_wrap (c : Camera) (deltaX deltaY : ℝ) :
    (Real.cos (c._modelRotationY - deltaX) > 0 →
      (c.updateModelRotation deltaX deltaY)._modelRotationX
        = whileAtLeastSub (whileNegativeAdd (c._modelRotationX - deltaY)))
    ∧ (Real.cos (c._modelRotationY - deltaX) ≤ 0 →
      (c.updateModelRotation deltaX deltaY)._modelRotationX
        = whileAtLeastSub (whileNegativeAdd (c._modelRotationX + deltaY)))
    ∧ (c._modelRotationY - deltaX = Real.pi / 2
        ∨ c._modelRotationY - deltaX = Real.pi / 2 + Real.pi →
      (c.updateModelRotation deltaX deltaY)._modelRotationX
        = whileAtLeastSub (whileNegativeAdd (c._modelRotationX + deltaY))) := by
  have hx : (c.updateModelRotation deltaX deltaY)._modelRotationX
      = whileAtLeastSub (whileNegativeAdd (c._modelRotationX
          - deltaY * (if Real.cos (c._modelRotationY - deltaX) > 0 then 1 else -1))) := rfl
  have hneg : Real.cos (c._modelRotationY - deltaX) ≤ 0 →
      (c.updateModelRotation deltaX deltaY)._modelRotationX
        = whileAtLeastSub (whileNegativeAdd (c._modelRotationX + deltaY)) := by
    intro h
    rw [hx, if_neg (not_lt.mpr h)]
    congr 2
    ring
  refine ⟨?_, hneg, ?_⟩
  · intro h
    rw [hx, if_pos h]
    congr 2
    ring
  · rintro (h | h)
    · apply hneg
      rw [h, Real.cos_pi_div_two]
    · apply hneg
      rw [h, Real.cos_add_pi, Real.cos_pi_div_two]
      simp

/-- In every case the right vector lies on the X axis: its Y and Z
components are 0. -/
theorem right_on_x_axis (c : Camera) (hd : 1 ≤ c._cameraDistance) :
    c.right.y = 0 ∧ c.right.z = 0 := by
  by_cases hs : Real.sin c._viewAngle > 0.99
  · rw [right_eq_of_lookingDown c hs]
    exact ⟨rfl, rfl⟩
  · have hraw := rightRaw_eq_of_not_lookingDown c hd hs
    by_cases hl : c.rightLength > 0.0001
    · simp only [Camera.right, Camera.isLookingDown, if_neg hs, if_pos hl, hraw]
      simp
    · simp only [Camera.right, Camera.isLookingDown, if_neg hs, if_neg hl, hraw]
      simp

/-- C18: for distance `d ≥ 1` and every view angle the view matrix has the
translation entries (12, 13, 14) equal to `(0, 0, -d)` and the entries
3, 7, 11, 15 equal to `(0, 0, 0, 1)`; so the world origin is sent to the point
`(0, 0, -d)` of the view axis. -/
theorem calculateViewMatrix_translation (c : Camera) (hd : 1 ≤ c._cameraDistance) :
    c.calculateViewMatrix 12 = 0
    ∧ c.calculateViewMatrix 13 = 0
    ∧ c.calculateViewMatrix 14 = -c._cameraDistance
    ∧ c.calculateViewMatrix 3 = 0
    ∧ c.calculateViewMatrix 7 = 0
    ∧ c.calculateViewMatrix 11 = 0
    ∧ c.calculateViewMatrix 15 = 1
    ∧ c.calculateViewMatrix.transformPoint { x := 0, y := 0, z := 0 }
        = { x := 0, y := 0, z := -c._cameraDistance } := by
  have hf := forward_eq c hd
  obtain ⟨hry, hrz⟩ := right_on_x_axis c hd
  have hsc := Real.sin_sq_add_cos_sq c._viewAngle
  obtain ⟨-, -, -, e3, -, -, -, e7, -, -, -, e11, e12, e13, e14, e15⟩ :=
    calculateViewMatrix_entries c
  have h12 : c.calculateViewMatrix 12 = 0 := by
    rw [e12, hry, hrz]
    simp [Camera.eye]
  have h13 : c.calculateViewMatrix 13 = 0 := by
    rw [e13]
    simp only [Camera.trueUp, hf, hry, hrz, Camera.eye]
    ring
  have h14 : c.calculateViewMatrix 14 = -c._cameraDistance := by
    rw [e14, hf]
    simp only [Camera.eye]
    linear_combination (-c._cameraDistance) * hsc
  refine ⟨h12, h13, h14, e3, e7, e11, e15, ?_⟩
  simp only [Mat16.transformPoint, h12, h13, h14]
  congr 1 <;> ring

/-- Witness for C18: the constructor state tilted by one radian. -/
theorem calculateViewMatrix_translation_witness :
    1 ≤ ({ Camera.new 0.4 with _viewAngle := 1 })._cameraDistance
    ∧ ({ Camera.new 0.4 with _viewAngle := 1 }).calculateViewMatrix 12 = 0
    ∧ ({ Camera.new 0.4 with _viewAngle := 1 }).calculateViewMatrix 13 = 0
    ∧ ({ Camera.new 0.4 with _viewAngle := 1 }).calculateViewMatrix 14 = -20 := by
  have hd : 1 ≤ ({ Camera.new 0.4 with _viewAngle := 1 })._cameraDistance := by
    norm_num [Camera.new]
  obtain ⟨h12, h13, h14, -⟩ :=
    calculateViewMatrix_translation { Camera.new 0.4 with _viewAngle := 1 } hd
  exact ⟨hd, h12, h13, by simpa [Camera.new] using h14⟩

/-- No call lowers the distance below 1. -/
theorem run_keeps_distance (c : Camera) (op : CameraOp) (h : 1 ≤ c._cameraDistance) :
    1 ≤ (op.run c)._cameraDistance := by
  cases op with
  | setHeight height => exact h
  | setDistance distance =>
    show 1 ≤ stdMax 1 distance
    unfold stdMax
    split_ifs with h1
    · exact le_of_lt h1
    · exact le_refl 1
  | setCameraDistance distance =>
    show 1 ≤ stdMax 1 distance
    unfold stdMax
    split_ifs with h1
    · exact le_of_lt h1
    · exact le_refl 1
  | updateModelRotation deltaX deltaY => exact h
  | resetModelRotation => exact h
  | resetRotation => exact h
  | updateAutoRotation deltaTime =>
    show 1 ≤ (c.updateAutoRotation deltaTime)._cameraDistance
    unfold Camera.updateAutoRotation
    split_ifs
    · exact h
    · exact h
  | toggleAutoRotation => exact h

theorem runAll_keeps_distance (ops : List CameraOp) (c : Camera)
    (h : 1 ≤ c._cameraDistance) : 1 ≤ (c.runAll ops)._cameraDistance := by
  induction ops generalizing c with
  | nil => exact h
  | cons op rest ih => exact ih (op.run c) (run_keeps_distance c op h)

/-- C19: in the constructor state, whatever `SLOW_ROTATION_SPEED` is, and in
every state reached from it by a sequence of calls of `setHeight`,
`setDistance`, `setCameraDistance`, `updateModelRotation`, `resetModelRotation`,
`resetRotation`, `updateAutoRotation` and `toggleAutoRotation`, the distance is
at least 1; there `forwardLength` equals the distance, passes the `> 0.0001`
guard, and the forward vector is the raw one divided by its length, of unit
length. -/
theorem reachable_distance_ge_one (slowRotationSpeed : ℝ) (ops : List CameraOp) :
    1 ≤ (Camera.new slowRotationSpeed)._cameraDistance
    ∧ 1 ≤ ((Camera.new slowRotationSpeed).runAll ops)._cameraDistance
    ∧ ((Camera.new slowRotationSpeed).runAll ops).forwardLength
        = ((Camera.new slowRotationSpeed).runAll ops)._cameraDistance
    ∧ ((Camera.new slowRotationSpeed).runAll ops).forwardLength > 0.0001
    ∧ ((Camera.new slowRotationSpeed).runAll ops).forward
        = { x := ((Camera.new slowRotationSpeed).runAll ops).forwardRaw.x
                  / ((Camera.new slowRotationSpeed).runAll ops).forwardLength
            y := ((Camera.new slowRotationSpeed).runAll ops).forwardRaw.y
                  / ((Camera.new slowRotationSpeed).runAll ops).forwardLength
            z := ((Camera.new slowRotationSpeed).runAll ops).forwardRaw.z
                  / ((Camera.new slowRotationSpeed).runAll ops).forwardLength }
    ∧ ((Camera.new slowRotationSpeed).runAll ops).forward.dot
        ((Camera.new slowRotationSpeed).runAll ops).forward = 1 := by
  have h0 : 1 ≤ (Camera.new slowRotationSpeed)._cameraDistance := by
    norm_num [Camera.new]
  have hd := runAll_keeps_distance ops _ h0
  have hlen := forwardLength_eq _ (le_trans zero_le_one hd)
  have hgt : ((Camera.new slowRotationSpeed).runAll ops).forwardLength > 0.0001 := by
    rw [hlen]
    norm_num
    linarith
  have hsc := Real.sin_sq_add_cos_sq ((Camera.new slowRotationSpeed).runAll ops)._viewAngle
  refine ⟨h0, hd, hlen, hgt, ?_, ?_⟩
  · simp only [Camera.forward, if_pos hgt]
  · rw [forward_eq _ hd]
    simp only [Vec3.dot]
    linear_combination hsc

/-- Where the two branches agree: for distance at least 1, whether
`sin t > 0.99` holds (special branch) or `cos t` passes the `> 0.0001` guard as a
positive number (standard branch), the matrix has right `(1, 0, 0)`,
up `(0, cos t, -sin t)` and negated forward `(0, sin t, cos t)`. -/
theorem calculateViewMatrix_basis_of_guard (c : Camera) (hd : 1 ≤ c._cameraDistance)
    (h : Real.sin c._viewAngle > 0.99 ∨ Real.cos c._viewAngle > 0.0001) :
    (c.calculateViewMatrix 0 = 1 ∧ c.calculateViewMatrix 1 = 0 ∧ c.calculateViewMatrix 2 = 0)
    ∧ (c.calculateViewMatrix 4 = 0 ∧ c.calculateViewMatrix 5 = Real.cos c._viewAngle
        ∧ c.calculateViewMatrix 6 = -Real.sin c._viewAngle)
    ∧ (c.calculateViewMatrix 8 = 0 ∧ c.calculateViewMatrix 9 = Real.sin c._viewAngle
        ∧ c.calculateViewMatrix 10 = Real.cos c._viewAngle) := by
  have hf := forward_eq c hd
  have hr : c.right = { x := 1, y := 0, z := 0 } := by
    by_cases hs : Real.sin c._viewAngle > 0.99
    · exact right_eq_of_lookingDown c hs
    · exact right_eq_of_cos_pos c hd hs (h.resolve_left hs)
  obtain ⟨e0, e1, e2, -, e4, e5, e6, -, e8, e9, e10, -⟩ := calculateViewMatrix_entries c
  rw [e0, e1, e2, e4, e5, e6, e8, e9, e10]
  simp [Camera.trueUp, hr, hf]

/-- C20: the two branches do not agree on all of `cos t > 0`.  In the
constructor state (distance 20) with `viewAngle = 0.00005 - π/2`, the cosine of
the view angle is `sin 0.00005 > 0` and the special branch is not taken; the
standard branch gets `rightLength = sin 0.00005 ≤ 0.00005`, which fails the
`> 0.0001` guard, and writes the right vector without normalising it: entry 0
is `sin 0.00005`, at most 0.00005, not 1. -/
theorem calculateViewMatrix_right_not_unit_near_looking_up :
    1 ≤ ({ Camera.new 0.4 with _viewAngle := 0.00005 - Real.pi / 2 })._cameraDistance
    ∧ Real.cos ({ Camera.new 0.4 with _viewAngle := 0.00005 - Real.pi / 2 })._viewAngle > 0
    ∧ ¬ Real.sin ({ Camera.new 0.4 with _viewAngle := 0.00005 - Real.pi / 2 })._viewAngle
        > 0.99
    ∧ ({ Camera.new 0.4 with _viewAngle := 0.00005 - Real.pi / 2 }).calculateViewMatrix 0
        = Real.sin 0.00005
    ∧ ({ Camera.new 0.4 with _viewAngle := 0.00005 - Real.pi / 2 }).calculateViewMatrix 0
        ≤ 0.00005
    ∧ ({ Camera.new 0.4 with _viewAngle := 0.00005 - Real.pi / 2 }).calculateViewMatrix 0
        ≠ 1 := by
  have hpi := Real.pi_gt_three
  have hd : 1 ≤ ({ Camera.new 0.4 with _viewAngle := 0.00005 - Real.pi / 2 })._cameraDistance := by
    norm_num [Camera.new]
  have hcos : Real.cos ({ Camera.new 0.4 with _viewAngle := 0.00005 - Real.pi / 2 })._viewAngle
      = Real.sin 0.00005 := Real.cos_sub_pi_div_two _
  have hsin : Real.sin ({ Camera.new 0.4 with _viewAngle := 0.00005 - Real.pi / 2 })._viewAngle
      = -Real.cos 0.00005 := Real.sin_sub_pi_div_two _
  have hspos : 0 < Real.sin 0.00005 :=
    Real.sin_pos_of_pos_of_lt_pi (by norm_num) (by linarith)
  have hsle : Real.sin 0.00005 ≤ 0.00005 := Real.sin_le (by norm_num)
  have hcpos : 0 < Real.cos 0.00005 :=
    Real.cos_pos_of_mem_Ioo ⟨by linarith, by linarith⟩
  have hs : ¬ Real.sin ({ Camera.new 0.4 with _viewAngle := 0.00005 - Real.pi / 2 })._viewAngle
      > 0.99 := by
    rw [hsin]
    intro h
    have : (0 : ℝ) < 0.99 := by norm_num
    linarith
  have hraw := rightRaw_eq_of_not_lookingDown _ hd hs
  have hlen := rightLength_eq_of_not_lookingDown _ hd hs
  rw [hcos] at hraw
  rw [hcos, abs_of_pos hspos] at hlen
  have hguard : ¬ ({ Camera.new 0.4 with
      _viewAngle := 0.00005 - Real.pi / 2 }).rightLength > 0.0001 := by
    rw [hlen]
    intro h
    have : (0.00005 : ℝ) < 0.0001 := by norm_num
    linarith
  have hr : ({ Camera.new 0.4 with _viewAngle := 0.00005 - Real.pi / 2 }).right
      = { x := Real.sin 0.00005, y := 0, z := 0 } := by
    simp only [Camera.right, Camera.isLookingDown, if_neg hs, if_neg hguard, hraw]
  obtain ⟨e0, -⟩ := calculateViewMatrix_entries
    { Camera.new 0.4 with _viewAngle := 0.00005 - Real.pi / 2 }
  have h0 : ({ Camera.new 0.4 with _viewAngle := 0.00005 - Real.pi / 2 }).calculateViewMatrix 0
      = Real.sin 0.00005 := by
    rw [e0, hr]
  refine ⟨hd, ?_, hs, h0, ?_, ?_⟩
  · rw [hcos]
    exact hspos
  · rw [h0]
    exact hsle
  · rw [h0]
    intro h
    have : (0.00005 : ℝ) < 1 := by norm_num
    linarith

/-- C21: the upper-left 3x3 block `R` of the model matrix is a proper rotation
for every yaw and pitch: `Rᵀ R = 1` and `det R = 1`; and the entries
3, 7, 11, 12, 13, 14, 15 are `0, 0, 0, 0, 0, 0, 1`, so the matrix neither
scales, shears nor translates. -/
theorem getModelRotationMatrix_proper_rotation (c : Camera) :
    (c.getModelRotationMatrix.rotationBlock).transpose * c.getModelRotationMatrix.rotationBlock
        = 1
    ∧ (c.getModelRotationMatrix.rotationBlock).det = 1
    ∧ c.getModelRotationMatrix 3 = 0
    ∧ c.getModelRotationMatrix 7 = 0
    ∧ c.getModelRotationMatrix 11 = 0
    ∧ c.getModelRotationMatrix 12 = 0
    ∧ c.getModelRotationMatrix 13 = 0
    ∧ c.getModelRotationMatrix 14 = 0
    ∧ c.getModelRotationMatrix 15 = 1 := by
  obtain ⟨e0, e1, e2, e3, e4, e5, e6, e7, e8, e9, e10, e11, e12, e13, e14, e15⟩ :=
    getModelRotationMatrix_entries c
  have hy := Real.sin_sq_add_cos_sq c._modelRotationY
  have hx := Real.sin_sq_add_cos_sq c._modelRotationX
  refine ⟨?_, ?_, e3, e7, e11, e12, e13, e14, e15⟩
  · unfold Mat16.rotationBlock
    rw [e0, e1, e2, e4, e5, e6, e8, e9, e10]
    ext i j
    fin_cases i <;> fin_cases j <;>
      simp [Matrix.mul_apply, Fin.sum_univ_three, Matrix.vecHead, Matrix.vecTail]
    · linear_combination hy
    · ring
    · ring
    · ring
    · linear_combination (Real.sin c._modelRotationX ^ 2) * hy + hx
    · linear_combination (Real.sin c._modelRotationX * Real.cos c._modelRotationX) * hy
    · ring
    · linear_combination (Real.sin c._modelRotationX * Real.cos c._modelRotationX) * hy
    · linear_combination (Real.cos c._modelRotationX ^ 2) * hy + hx
  · unfold Mat16.rotationBlock
    rw [e0, e1, e2, e4, e5, e6, e8, e9, e10, Matrix.det_fin_three]
    simp [Matrix.vecHead, Matrix.vecTail]
    linear_combination
      (Real.cos c._modelRotationX ^ 2 + Real.sin c._modelRotationX ^ 2) * hy + hx

/-- An angle already in `[0, 2π)` passes both loops of `updateModelRotation`
unchanged. -/
theorem wrap_of_in_range (a : ℝ) (h0 : 0 ≤ a) (h1 : a < 2 * Real.pi) :
    whileAtLeastSub (whileNegativeAdd a) = a := by
  have h2 : a < TWO_PI := by
    unfold TWO_PI
    linarith
  rw [whileNegativeAdd_of_nonneg a h0, whileAtLeastSub_of_lt a h2]

/-- Wrapping an angle that is a whole number of turns away from a value of
`[0, 2π)` gives that value. -/
theorem wrap_of_turns_from_range (a y : ℝ) (k : ℤ) (h0 : 0 ≤ y) (h1 : y < 2 * Real.pi)
    (ha : a = y + k * (2 * Real.pi)) :
    whileAtLeastSub (whileNegativeAdd a) = y := by
  obtain ⟨j, hj⟩ := wrap_turns a
  have hr := wrap_in_range a
  have h2 : TWO_PI = 2 * Real.pi := by
    unfold TWO_PI
    ring
  rw [h2] at hr
  have hv : whileAtLeastSub (whileNegativeAdd a) = y + ((k + j : ℤ) : ℝ) * (2 * Real.pi) := by
    rw [hj, ha]
    push_cast
    ring
  have e1 := canonical_of_range y _ (k + j) hr.1 hr.2 hv
  have e2 := canonical_of_range y y 0 h0 h1 (by simp)
  rw [e1, ← e2]

/-- C22: from a state whose pitch and yaw lie in `[0, 2π)`, the call
`updateModelRotation(deltaX, 0)` followed by `updateModelRotation(-deltaX, 0)`
gives back the pitch and the yaw exactly, and with them the whole state; and
`updateModelRotation(0, 0)` leaves such a state unchanged. -/
theorem horizontal_drag_undone (c : Camera) (deltaX : ℝ)
    (hp0 : 0 ≤ c._modelRotationX) (hp1 : c._modelRotationX < 2 * Real.pi)
    (hy0 : 0 ≤ c._modelRotationY) (hy1 : c._modelRotationY < 2 * Real.pi) :
    ((c.updateModelRotation deltaX 0).updateModelRotation (-deltaX) 0)._modelRotationX
        = c._modelRotationX
    ∧ ((c.updateModelRotation deltaX 0).updateModelRotation (-deltaX) 0)._modelRotationY
        = c._modelRotationY
    ∧ (c.updateModelRotation deltaX 0).updateModelRotation (-deltaX) 0 = c
    ∧ c.updateModelRotation 0 0 = c := by
  have hpitch : ∀ s : Camera, ∀ d : ℝ, 0 ≤ s._modelRotationX → s._modelRotationX < 2 * Real.pi
      → (s.updateModelRotation d 0)._modelRotationX = s._modelRotationX := by
    intro s d h0 h1
    simp only [Camera.updateModelRotation, zero_mul, sub_zero]
    exact wrap_of_in_range _ h0 h1
  have hyaw : ∀ s : Camera, ∀ d e : ℝ,
      (s.updateModelRotation d e)._modelRotationY
        = whileAtLeastSub (whileNegativeAdd (s._modelRotationY - d)) := fun _ _ _ => rfl
  have hframe : ∀ s : Camera, ∀ d e : ℝ,
      s.updateModelRotation d e
        = { s with
            _modelRotationX := (s.updateModelRotation d e)._modelRotationX
            _modelRotationY := (s.updateModelRotation d e)._modelRotationY } :=
    fun _ _ _ => rfl
  have hX : ((c.updateModelRotation deltaX 0).updateModelRotation (-deltaX) 0)._modelRotationX
      = c._modelRotationX := by
    have h1 := hpitch c deltaX hp0 hp1
    rw [hpitch (c.updateModelRotation deltaX 0) (-deltaX) (by rw [h1]; exact hp0)
      (by rw [h1]; exact hp1), h1]
  have hY : ((c.updateModelRotation deltaX 0).updateModelRotation (-deltaX) 0)._modelRotationY
      = c._modelRotationY := by
    rw [hyaw, hyaw]
    obtain ⟨k, hk⟩ := wrap_turns (c._modelRotationY - deltaX)
    apply wrap_of_turns_from_range _ _ k hy0 hy1
    rw [hk]
    ring
  have hX0 : (c.updateModelRotation 0 0)._modelRotationX = c._modelRotationX :=
    hpitch c 0 hp0 hp1
  have hY0 : (c.updateModelRotation 0 0)._modelRotationY = c._modelRotationY := by
    rw [hyaw, sub_zero]
    exact wrap_of_in_range _ hy0 hy1
  refine ⟨hX, hY, ?_, ?_⟩
  · rw [hframe (c.updateModelRotation deltaX 0) (-deltaX) 0, hX, hY]
    cases c
    rfl
  · rw [hframe c 0 0, hX0, hY0]

/-- Witness for C22: the constructor state turned to pitch 1 and yaw 2, dragged
by 10 radians and back. -/
theorem horizontal_drag_undone_witness :
    (0 ≤ ({ Camera.new 0.4 with _modelRotationX := 1, _modelRotationY := 2 })._modelRotationX
      ∧ ({ Camera.new 0.4 with _modelRotationX := 1, _modelRotationY := 2 })._modelRotationX
          < 2 * Real.pi
      ∧ 0 ≤ ({ Camera.new 0.4 with _modelRotationX := 1, _modelRotationY := 2 })._modelRotationY
      ∧ ({ Camera.new 0.4 with _modelRotationX := 1, _modelRotationY := 2 })._modelRotationY
          < 2 * Real.pi)
    ∧ ((({ Camera.new 0.4 with _modelRotationX := 1, _modelRotationY := 2 }).updateModelRotation
          10 0).updateModelRotation (-10) 0)._modelRotationY = 2
    ∧ (({ Camera.new 0.4 with _modelRotationX := 1, _modelRotationY := 2 }).updateModelRotation
          10 0).updateModelRotation (-10) 0
        = { Camera.new 0.4 with _modelRotationX := 1, _modelRotationY := 2 } := by
  have hpi := Real.pi_gt_three
  have hp0 : 0 ≤ ({ Camera.new 0.4 with
      _modelRotationX := 1, _modelRotationY := 2 })._modelRotationX := by
    norm_num
  have hp1 : ({ Camera.new 0.4 with
      _modelRotationX := 1, _modelRotationY := 2 })._modelRotationX < 2 * Real.pi := by
    simp only
    linarith
  have hy0 : 0 ≤ ({ Camera.new 0.4 with
      _modelRotationX := 1, _modelRotationY := 2 })._modelRotationY := by
    norm_num
  have hy1 : ({ Camera.new 0.4 with
      _modelRotationX := 1, _modelRotationY := 2 })._modelRotationY < 2 * Real.pi := by
    simp only
    linarith
  obtain ⟨-, hY, hc, -⟩ := horizontal_drag_undone
    { Camera.new 0.4 with _modelRotationX := 1, _modelRotationY := 2 } 10 hp0 hp1 hy0 hy1
  exact ⟨⟨hp0, hp1, hy0, hy1⟩, hY, hc⟩

/-! ## The wrap loops at binary32 precision -/

/-- A real between `2 ^ e` and `2 ^ (e + 1)` has binary exponent `e`. -/
theorem log_two_eq (r : ℝ) (e : ℤ) (h1 : (2 : ℝ) ^ e ≤ r) (h2 : r < (2 : ℝ) ^ (e + 1)) :
    Int.log 2 r = e := by
  have hr : 0 < r := lt_of_lt_of_le (zpow_pos (by norm_num) e) h1
  have hb : 1 < (2 : ℕ) := by norm_num
  have ha : e ≤ Int.log 2 r := by
    rw [← Int.zpow_le_iff_le_log hb hr]
    exact_mod_cast h1
  have hc : Int.log 2 r < e + 1 := by
    rw [← Int.lt_zpow_iff_log_lt hb hr]
    exact_mod_cast h2
  omega

theorem roundHalfEven_up (n : ℝ) (k : ℤ) (h1 : (k : ℝ) - 1 / 2 < n) (h2 : n < k) :
    roundHalfEven n = k := by
  have hfl : Int.floor n = k - 1 := by
    rw [Int.floor_eq_iff]
    push_cast
    constructor <;> linarith
  simp only [roundHalfEven, hfl]
  push_cast
  rw [if_neg (by linarith), if_pos (by linarith)]
  ring

theorem roundHalfEven_down (n : ℝ) (k : ℤ) (h1 : (k : ℝ) ≤ n) (h2 : n < k + 1 / 2) :
    roundHalfEven n = k := by
  have hfl : Int.floor n = k := by
    rw [Int.floor_eq_iff]
    constructor <;> linarith
  simp only [roundHalfEven, hfl]
  rw [if_pos (by linarith)]

/-- Between `2 ^ 27` and `2 ^ 28` neighbouring binary32 values are 16 apart. -/
theorem ulpF32_binade27 (x : ℝ) (h1 : 134217728 ≤ |x|) (h2 : |x| < 268435456) :
    ulpF32 x = 16 := by
  unfold ulpF32
  rw [log_two_eq |x| 27 (by norm_num; exact h1) (by norm_num; exact h2)]
  norm_num

/-- The `float` nearest to 2π is `13176795 / 2 ^ 21 = 6.2831854820251465`
(`0x40C90FDB`). -/
theorem TWO_PI_F32_eq : TWO_PI_F32 = 13176795 / 2097152 := by
  have hulp : ulpF32 (M_PI_F64 * 2) = 1 / 2097152 := by
    unfold ulpF32
    rw [log_two_eq |M_PI_F64 * 2| 2
      (by unfold M_PI_F64; rw [abs_of_pos (by norm_num)]; norm_num)
      (by unfold M_PI_F64; rw [abs_of_pos (by norm_num)]; norm_num)]
    norm_num
  unfold TWO_PI_F32 roundF32
  rw [if_neg (by unfold M_PI_F64; norm_num), hulp, roundHalfEven_up _ 13176795]
  · norm_num
  · unfold M_PI_F64
    norm_num
  · unfold M_PI_F64
    norm_num

theorem roundF32_two_e8 : roundF32 200000000 = 200000000 := by
  have hulp : ulpF32 200000000 = 16 := by
    apply ulpF32_binade27 <;> norm_num
  unfold roundF32
  rw [if_neg (by norm_num), hulp, roundHalfEven_down _ 12500000]
  · norm_num
  · norm_num
  · norm_num

theorem roundF32_neg_two_e8 : roundF32 (-200000000) = -200000000 := by
  have hulp : ulpF32 (-200000000) = 16 := by
    apply ulpF32_binade27 <;> norm_num
  unfold roundF32
  rw [if_neg (by norm_num), hulp, roundHalfEven_down _ (-12500000)]
  · norm_num
  · norm_num
  · norm_num

/-- Subtracting the `float` 2π from `2e8f` gives `2e8f` again: the exact
difference 199999993.7168... lies nearer to 200000000 than to 199999984. -/
theorem roundF32_absorbs_sub : roundF32 (200000000 - TWO_PI_F32) = 200000000 := by
  rw [TWO_PI_F32_eq]
  have hpos : (0 : ℝ) < 200000000 - 13176795 / 2097152 := by norm_num
  have hulp : ulpF32 (200000000 - 13176795 / 2097152) = 16 := by
    apply ulpF32_binade27
    · rw [abs_of_pos hpos]
      norm_num
    · rw [abs_of_pos hpos]
      norm_num
  unfold roundF32
  rw [if_neg (ne_of_gt hpos), hulp, roundHalfEven_up _ 12500000]
  · norm_num
  · norm_num
  · norm_num

/-- Adding the `float` 2π to `-2e8f` gives `-2e8f` again. -/
theorem roundF32_absorbs_add : roundF32 (-200000000 + TWO_PI_F32) = -200000000 := by
  rw [TWO_PI_F32_eq]
  have hneg : (-200000000 + 13176795 / 2097152 : ℝ) < 0 := by norm_num
  have hulp : ulpF32 (-200000000 + 13176795 / 2097152) = 16 := by
    apply ulpF32_binade27
    · rw [abs_of_neg hneg]
      norm_num
    · rw [abs_of_neg hneg]
      norm_num
  unfold roundF32
  rw [if_neg (ne_of_lt hneg), hulp, roundHalfEven_down _ (-12500000)]
  · norm_num
  · norm_num
  · norm_num

/-- A loop whose condition fails at the start returns at once. -/
theorem whileLoop_of_not_cond (cond : ℝ → Prop) [DecidablePred cond] (body : ℝ → ℝ)
    (fuel : ℕ) (a : ℝ) (h : ¬ cond a) : whileLoop cond body fuel a = some a := by
  cases fuel <;> simp [whileLoop, h]

/-- A loop whose condition holds at a value that its body leaves unchanged
does not exit within any bound. -/
theorem whileLoop_stuck (cond : ℝ → Prop) [DecidablePred cond] (body : ℝ → ℝ) (a : ℝ)
    (hc : cond a) (hb : body a = a) (fuel : ℕ) : whileLoop cond body fuel a = none := by
  induction fuel with
  | zero => simp [whileLoop, hc]
  | succ n ih => simp [whileLoop, hc, hb, ih]

theorem roundF32_zero : roundF32 0 = 0 := by
  simp [roundF32]

/-- C13: at the precision of the source's `float` the wrap loops do not always
exit.  From the constructor state, `updateModelRotation(-2e8f, 0)` sets the yaw
to `2e8f`; the loop `while (yaw >= 2π) yaw -= 2π` then computes
`2e8f - 2π`, which rounds back to `2e8f`, so the condition holds again with the
same value and no number of passes ends the loop.  `updateModelRotation(2e8f, 0)`
is stuck alike in `while (yaw < 0) yaw += 2π` at `-2e8f`.  This holds whatever
`std::cos` returns and whatever `SLOW_ROTATION_SPEED` is; the same embedding does
return on the call `updateModelRotation(0, 0)`. -/
theorem updateModelRotationF32_does_not_return (cosF : ℝ → ℝ) (slowRotationSpeed : ℝ)
    (fuel : ℕ) :
    ((200000000 : ℝ) ≥ TWO_PI_F32 ∧ roundF32 (200000000 - TWO_PI_F32) = 200000000)
    ∧ (Camera.new slowRotationSpeed).updateModelRotationF32 cosF fuel (-200000000) 0 = none
    ∧ ((-200000000 : ℝ) < 0 ∧ roundF32 (-200000000 + TWO_PI_F32) = -200000000)
    ∧ (Camera.new slowRotationSpeed).updateModelRotationF32 cosF fuel 200000000 0 = none
    ∧ (Camera.new slowRotationSpeed).updateModelRotationF32 cosF fuel 0 0
        = some (Camera.new slowRotationSpeed) := by
  have hge : (200000000 : ℝ) ≥ TWO_PI_F32 := by
    rw [TWO_PI_F32_eq]
    norm_num
  have hpos : ¬ (0 : ℝ) ≥ TWO_PI_F32 := by
    rw [TWO_PI_F32_eq]
    norm_num
  have h0 : ¬ (0 : ℝ) < 0 := lt_irrefl 0
  have hbig : ¬ (200000000 : ℝ) < 0 := by norm_num
  have hsmall : (-200000000 : ℝ) < 0 := by norm_num
  have hL1 : whileLoop (fun a => a < 0) (fun a => roundF32 (a + TWO_PI_F32)) fuel 0
      = some 0 :=
    whileLoop_of_not_cond (fun a => a < 0) (fun a => roundF32 (a + TWO_PI_F32)) fuel 0 h0
  have hL2 : whileLoop (fun a => a ≥ TWO_PI_F32) (fun a => roundF32 (a - TWO_PI_F32)) fuel 0
      = some 0 :=
    whileLoop_of_not_cond (fun a => a ≥ TWO_PI_F32) (fun a => roundF32 (a - TWO_PI_F32))
      fuel 0 hpos
  have hL3 : whileLoop (fun a => a < 0) (fun a => roundF32 (a + TWO_PI_F32)) fuel 200000000
      = some 200000000 :=
    whileLoop_of_not_cond (fun a => a < 0) (fun a => roundF32 (a + TWO_PI_F32)) fuel
      200000000 hbig
  have hstuckDown : whileLoop (fun a => a ≥ TWO_PI_F32) (fun a => roundF32 (a - TWO_PI_F32))
      fuel 200000000 = none :=
    whileLoop_stuck (fun a => a ≥ TWO_PI_F32) (fun a => roundF32 (a - TWO_PI_F32))
      200000000 hge roundF32_absorbs_sub fuel
  have hstuckUp : whileLoop (fun a => a < 0) (fun a => roundF32 (a + TWO_PI_F32))
      fuel (-200000000) = none :=
    whileLoop_stuck (fun a => a < 0) (fun a => roundF32 (a + TWO_PI_F32))
      (-200000000) hsmall roundF32_absorbs_add fuel
  refine ⟨⟨hge, roundF32_absorbs_sub⟩, ?_, ⟨hsmall, roundF32_absorbs_add⟩, ?_, ?_⟩
  · simp only [Camera.updateModelRotationF32, Camera.new, zero_mul, roundF32_zero, sub_zero,
      zero_sub, neg_neg, roundF32_two_e8, hL1, hL2, hL3, hstuckDown, Option.some_bind,
      Option.none_bind]
  · simp only [Camera.updateModelRotationF32, Camera.new, zero_mul, roundF32_zero, sub_zero,
      zero_sub, roundF32_neg_two_e8, hL1, hL2, hstuckUp, Option.some_bind,
      Option.none_bind]
  · simp only [Camera.updateModelRotationF32, Camera.new, zero_mul, roundF32_zero, sub_zero,
      hL1, hL2, Option.some_bind]

end PixelTheater

end
